import Mathlib

/-!
# Verification of the collaborative-whiteboard room engine

Shallow embedding of the in-memory core of the `sketch` backend
(`src/backend/src`): the `Room` model, the board sub-service
(stroke lifecycle), the room registry (`RoomService`) and the
token-bucket rate limiter, together with theorems settling the
frozen specification claims.

Modelling conventions:
* C++ `unordered_map` becomes an association list `List (String × α)`
  with insert-or-replace (`mapInsert`), erase (`mapErase`) and
  lookup (`mapFind`); `size()` is the list length (reachable states
  keep the keys duplicate-free).
* `float`/`double` values become exact rationals `ℚ`; where the code
  casts a `double` to an integer (`static_cast<int64_t>`) we model the
  C++ truncation-toward-zero with `truncQ`.
* `std::chrono::steady_clock::now()` becomes an explicit monotone
  time parameter (`ℕ` for the registry deadlines, `ℚ` seconds for
  the rate limiter).
* A `sender` callback side effect becomes an explicit event list of
  `(recipient userId, message)` pairs; a `weak_ptr` whose `lock()`
  succeeds becomes the boolean `sessionAlive` field of `UserInfo`.
-/

namespace Collabboard

/-- Protocol constants from `message_types.hpp` (`ProtocolConstants`). -/
def MaxUsersPerRoom : Nat := 15

/-- `ProtocolConstants::MaxStrokesPerRoom`. -/
def MaxStrokesPerRoom : Nat := 1000

/-- `ProtocolConstants::SnapshotStrokeLimit`. -/
def SnapshotStrokeLimit : Nat := 500

/-- `ProtocolConstants::MaxPointsPerStroke`. -/
def MaxPointsPerStroke : Nat := 10000

/-- Error codes from `message_types.hpp` (`enum class ErrorCode`). -/
inductive ErrorCode where
  | RoomNotFound
  | RoomFull
  | InvalidPassword
  | MalformedMessage
  | InvalidMessageType
  | MissingField
  | InvalidField
  | RateLimited
  | InvalidStroke
  | StrokeTooLarge
  | NotInRoom
  | AlreadyInRoom
  | InternalError
deriving DecidableEq, Repr

/-- A point of a stroke (`struct Point` in `stroke.hpp`); the two
32-bit floats are modelled as exact rationals. -/
structure Point where
  x : ℚ
  y : ℚ
deriving DecidableEq, Repr

/-- A drawing stroke (`struct Stroke` in `stroke.hpp`). -/
structure Stroke where
  strokeId : String
  oderId : String
  points : List Point
  color : String
  width : ℚ
  complete : Bool
  seq : Nat
deriving DecidableEq, Repr

/-- `Stroke::addPoints`: append the new points at the end. -/
def Stroke.addPoints (s : Stroke) (newPoints : List Point) : Stroke :=
  { s with points := s.points ++ newPoints }

/-- `Stroke::finish`: mark the stroke complete. -/
def Stroke.finish (s : Stroke) : Stroke :=
  { s with complete := true }

/-- `Stroke::translate`: shift every point by `(dx, dy)`. -/
def Stroke.translate (s : Stroke) (dx dy : ℚ) : Stroke :=
  { s with points := s.points.map (fun p => ⟨p.x + dx, p.y + dy⟩) }

/-- `Stroke::pointCount`. -/
def Stroke.pointCount (s : Stroke) : Nat :=
  s.points.length

/-- Per-user state in a room (`struct UserInfo` in `user_info.hpp`).
The `weak_ptr<WsSession>` is modelled by `sessionAlive`: whether
`session.lock()` succeeds. -/
structure UserInfo where
  userId : String
  userName : String
  color : String
  sessionAlive : Bool
  lastActivity : Nat
  isActive : Bool
deriving DecidableEq, Repr

/-- A user's cursor (`struct CursorState` in `user_info.hpp`). -/
structure CursorState where
  oderId : String
  x : ℚ
  y : ℚ
  lastUpdate : Nat
  visible : Bool
deriving DecidableEq, Repr

/-- Association-list model of `unordered_map` lookup (`find`). -/
def mapFind {α : Type} : List (String × α) → String → Option α
  | [], _ => none
  | (k, v) :: rest, key => if k = key then some v else mapFind rest key

/-- Association-list model of `unordered_map` `operator[]=` /
`insert_or_assign`: replace the entry if the key is present,
otherwise add a new entry. -/
def mapInsert {α : Type} : List (String × α) → String → α → List (String × α)
  | [], key, v => [(key, v)]
  | (k, w) :: rest, key, v =>
      if k = key then (key, v) :: rest else (k, w) :: mapInsert rest key v

/-- Association-list model of `unordered_map::erase` by key. -/
def mapErase {α : Type} : List (String × α) → String → List (String × α)
  | [], _ => []
  | (k, v) :: rest, key =>
      if k = key then mapErase rest key else (k, v) :: mapErase rest key

/-- Update the value stored at a key in place (models mutating through
the pointer returned by a lookup). -/
def mapUpdate {α : Type} : List (String × α) → String → (α → α) → List (String × α)
  | [], _, _ => []
  | (k, v) :: rest, key, f =>
      if k = key then (k, f v) :: rest else (k, v) :: mapUpdate rest key f

/-- Wire messages produced by `MessageCodec` (`message_codec.hpp`),
with the JSON abstracted to the fields the codec writes.
The `users` list of `welcome` holds `(userId, name, color)` triples. -/
inductive Msg where
  | welcome (oderId color : String) (users : List (String × String × String)) (seq : Nat)
  | userJoined (oderId name color : String) (seq : Nat)
  | userLeft (oderId : String) (seq : Nat)
  | cursorMove (oderId : String) (x y : ℚ) (seq : Nat)
  | strokeStart (strokeId oderId color : String) (width : ℚ) (seq : Nat)
  | strokeAdd (strokeId oderId : String) (points : List Point) (seq : Nat)
  | strokeEnd (strokeId oderId : String) (seq : Nat)
  | strokeMove (strokeId oderId : String) (dx dy : ℚ) (seq : Nat)
  | roomState (strokes : List Stroke) (snapshotSeq : Nat)
deriving DecidableEq, Repr

/-- The `seq` field stamped on a message (`snapshotSeq` for `room_state`). -/
def Msg.seqOf : Msg → Nat
  | .welcome _ _ _ s => s
  | .userJoined _ _ _ s => s
  | .userLeft _ s => s
  | .cursorMove _ _ _ s => s
  | .strokeStart _ _ _ _ s => s
  | .strokeAdd _ _ _ s => s
  | .strokeEnd _ _ s => s
  | .strokeMove _ _ _ _ s => s
  | .roomState _ s => s

/-- A collaborative room (`class Room` in `room.hpp`). -/
structure Room where
  roomId : String
  password : String
  participants : List (String × UserInfo)
  cursors : List (String × CursorState)
  strokes : List Stroke
  nextSeq : Nat
  maxStrokes : Nat
  maxUsers : Nat
deriving DecidableEq, Repr

/-- The `Room` constructor: empty maps, `nextSeq_ = 1`, caps from the
protocol constants. -/
def Room.create (id password : String) : Room :=
  { roomId := id
    password := password
    participants := []
    cursors := []
    strokes := []
    nextSeq := 1
    maxStrokes := MaxStrokesPerRoom
    maxUsers := MaxUsersPerRoom }

/-- `Room::validatePassword`: an empty room password accepts anything. -/
def Room.validatePassword (r : Room) (pwd : String) : Bool :=
  if r.password = "" then true else r.password = pwd

/-- `Room::addParticipant`: refuse when the size cap is reached,
otherwise store the participant and a zero cursor (the C++ cursor
constructor stamps the current time). -/
def Room.addParticipant (r : Room) (oderId : String) (info : UserInfo) (now : Nat) :
    Bool × Room :=
  if r.maxUsers ≤ r.participants.length then (false, r)
  else
    (true,
      { r with
        participants := mapInsert r.participants oderId info
        cursors := mapInsert r.cursors oderId ⟨oderId, 0, 0, now, true⟩ })

/-- `Room::removeParticipant`: erase the participant and the cursor. -/
def Room.removeParticipant (r : Room) (oderId : String) : Room :=
  { r with
    participants := mapErase r.participants oderId
    cursors := mapErase r.cursors oderId }

/-- `Room::getParticipants`: the stored `UserInfo` values. -/
def Room.getParticipants (r : Room) : List UserInfo :=
  r.participants.map (fun p => p.2)

/-- `Room::isEmpty`. -/
def Room.isEmpty (r : Room) : Bool :=
  r.participants.isEmpty

/-- `Room::isFull`. -/
def Room.isFull (r : Room) : Bool :=
  r.maxUsers ≤ r.participants.length

/-- `Room::pruneStrokesIfNeeded`: when over the cap, drop the oldest
entries from the front until exactly `maxStrokes` remain. -/
def Room.pruneStrokesIfNeeded (r : Room) : Room :=
  if r.maxStrokes < r.strokes.length then
    { r with strokes := r.strokes.drop (r.strokes.length - r.maxStrokes) }
  else r

/-- `Room::addStroke`: append then prune. -/
def Room.addStroke (r : Room) (s : Stroke) : Room :=
  Room.pruneStrokesIfNeeded { r with strokes := r.strokes ++ [s] }

/-- `Room::getStroke`: linear scan from the front, first stroke whose
id matches. -/
def Room.getStroke (r : Room) (strokeId : String) : Option Stroke :=
  r.strokes.find? (fun s => s.strokeId = strokeId)

/-- Mutation through the pointer returned by `Room::getStroke`:
apply `f` to the first stroke whose id matches. -/
def updateFirstStroke : List Stroke → String → (Stroke → Stroke) → List Stroke
  | [], _, _ => []
  | s :: rest, sid, f =>
      if s.strokeId = sid then f s :: rest else s :: updateFirstStroke rest sid f

/-- `Room::getStrokesSnapshot`: all strokes when within the limit,
otherwise the most recent `limit` strokes. -/
def Room.getStrokesSnapshot (r : Room) (limit : Nat) : List Stroke :=
  if r.strokes.length ≤ limit then r.strokes
  else r.strokes.drop (r.strokes.length - limit)

/-- `Room::getStrokeCount`. -/
def Room.getStrokeCount (r : Room) : Nat :=
  r.strokes.length

/-- `Room::nextSequence`: `fetch_add` returning the old value. -/
def Room.nextSequence (r : Room) : Nat × Room :=
  (r.nextSeq, { r with nextSeq := r.nextSeq + 1 })

/-- `Room::currentSequence`: read without increment. -/
def Room.currentSequence (r : Room) : Nat :=
  r.nextSeq

/-- `Room::broadcast`: every participant except `excludeUserId` whose
session is still alive receives the message, in participant order.
The result is the list of delivered `(recipient, message)` events. -/
def Room.broadcast (r : Room) (msg : Msg) (excludeUserId : String) :
    List (String × Msg) :=
  (r.participants.filter
    (fun p => decide (p.1 ≠ excludeUserId) && p.2.sessionAlive)).map
    (fun p => (p.1, msg))

/-- Result of a board sub-service operation: the error (if any), the
room afterwards, and the broadcast events emitted. -/
structure BoardResult where
  err : Option ErrorCode
  room : Room
  sent : List (String × Msg)
deriving Repr

/-- `BoardService::handleStrokeStart` (`board_service.hpp`): create
the stroke with one `nextSequence()` draw, add it, broadcast a
`stroke_start` carrying `stroke.seq` to everyone but the author. -/
def handleStrokeStart (room : Room) (oderId strokeId color : String) (width : ℚ) :
    BoardResult :=
  let drawn := room.nextSequence
  let stroke : Stroke :=
    { strokeId := strokeId, oderId := oderId, points := [], color := color
      width := width, complete := false, seq := drawn.1 }
  let room2 := drawn.2.addStroke stroke
  let msg := Msg.strokeStart strokeId oderId color width stroke.seq
  { err := none, room := room2, sent := room2.broadcast msg oderId }

/-- `BoardService::handleStrokeAdd`: ownership and completion checks,
the 10 000-point cap, then append and broadcast with a new seq. -/
def handleStrokeAdd (room : Room) (oderId strokeId : String) (points : List Point) :
    BoardResult :=
  match room.getStroke strokeId with
  | none => { err := some ErrorCode.InvalidStroke, room := room, sent := [] }
  | some stroke =>
    if stroke.oderId ≠ oderId then
      { err := some ErrorCode.InvalidStroke, room := room, sent := [] }
    else if stroke.complete then
      { err := some ErrorCode.InvalidStroke, room := room, sent := [] }
    else if MaxPointsPerStroke < stroke.pointCount + points.length then
      { err := some ErrorCode.StrokeTooLarge, room := room, sent := [] }
    else
      let room1 :=
        { room with strokes := updateFirstStroke room.strokes strokeId (fun s => s.addPoints points) }
      let drawn := room1.nextSequence
      let msg := Msg.strokeAdd strokeId oderId points drawn.1
      { err := none, room := drawn.2, sent := drawn.2.broadcast msg oderId }

/-- `BoardService::handleStrokeEnd`: ownership check, mark complete,
broadcast with a new seq. -/
def handleStrokeEnd (room : Room) (oderId strokeId : String) : BoardResult :=
  match room.getStroke strokeId with
  | none => { err := some ErrorCode.InvalidStroke, room := room, sent := [] }
  | some stroke =>
    if stroke.oderId ≠ oderId then
      { err := some ErrorCode.InvalidStroke, room := room, sent := [] }
    else
      let room1 :=
        { room with strokes := updateFirstStroke room.strokes strokeId (fun s => s.finish) }
      let drawn := room1.nextSequence
      let msg := Msg.strokeEnd strokeId oderId drawn.1
      { err := none, room := drawn.2, sent := drawn.2.broadcast msg oderId }

/-- `BoardService::handleStrokeMove`: ownership check, only complete
strokes may be moved, translate and broadcast with a new seq. -/
def handleStrokeMove (room : Room) (oderId strokeId : String) (dx dy : ℚ) :
    BoardResult :=
  match room.getStroke strokeId with
  | none => { err := some ErrorCode.InvalidStroke, room := room, sent := [] }
  | some stroke =>
    if stroke.oderId ≠ oderId then
      { err := some ErrorCode.InvalidStroke, room := room, sent := [] }
    else if !stroke.complete then
      { err := some ErrorCode.InvalidStroke, room := room, sent := [] }
    else
      let room1 :=
        { room with strokes := updateFirstStroke room.strokes strokeId (fun s => s.translate dx dy) }
      let drawn := room1.nextSequence
      let msg := Msg.strokeMove strokeId oderId dx dy drawn.1
      { err := none, room := drawn.2, sent := drawn.2.broadcast msg oderId }

/-- `BoardService::getSnapshot`: `room_state` from the most recent 500
strokes and `currentSequence()` read without increment. -/
def getSnapshot (room : Room) : Msg :=
  Msg.roomState (room.getStrokesSnapshot SnapshotStrokeLimit) room.currentSequence

/-- Result of `RoomService::joinRoom` (`struct JoinResult` in
`room_service.hpp`). -/
structure JoinResult where
  success : Bool
  errorCode : ErrorCode
  oderId : String
  color : String
  errorMessage : String
deriving DecidableEq, Repr

/-- `JoinResult::Success` (the source leaves `errorCode` at
`InternalError` in the success case). -/
def JoinResult.Success (uid col : String) : JoinResult :=
  { success := true, errorCode := ErrorCode.InternalError
    oderId := uid, color := col, errorMessage := "" }

/-- `JoinResult::Failure` with the default empty message. -/
def JoinResult.Failure (code : ErrorCode) : JoinResult :=
  { success := false, errorCode := code, oderId := "", color := ""
    errorMessage := "" }

/-- The fixed 15-colour palette initialised in the `RoomService`
constructor. -/
def colorPaletteInit : List String :=
  ["#FF5733", "#33FF57", "#3357FF", "#FF33F5", "#F5FF33",
   "#33FFF5", "#FF8C33", "#8C33FF", "#33FF8C", "#FF338C",
   "#338CFF", "#8CFF33", "#FF3333", "#33FF33", "#3333FF"]

/-- The room registry (`class RoomService` in `room_service.hpp`).
`uidCounter` models the fresh UUID draw of `generateUserId()`:
each join consumes one fresh identifier. -/
structure RoomService where
  rooms : List (String × Room)
  pendingDeletion : List (String × Nat)
  gracePeriod : Nat
  colorPalette : List String
  nextColorIndex : Nat
  uidCounter : Nat
deriving Repr

/-- A freshly constructed `RoomService` with the default 60-second
grace period. -/
def RoomService.init : RoomService :=
  { rooms := [], pendingDeletion := [], gracePeriod := 60
    colorPalette := colorPaletteInit, nextColorIndex := 0, uidCounter := 0 }

/-- The loop body of `cleanupExpiredRoomsLocked`: walk the pending
map; for every entry whose deadline has passed, erase the room and
the entry. Returns the surviving pending entries and rooms. -/
def removeExpired : List (String × Nat) → Nat → List (String × Room) →
    List (String × Nat) × List (String × Room)
  | [], _, rooms => ([], rooms)
  | (rid, deadline) :: rest, now, rooms =>
      if deadline ≤ now then removeExpired rest now (mapErase rooms rid)
      else
        let r := removeExpired rest now rooms
        ((rid, deadline) :: r.1, r.2)

/-- `RoomService::cleanupExpiredRoomsLocked`. -/
def RoomService.cleanupExpired (svc : RoomService) (now : Nat) : RoomService :=
  let r := removeExpired svc.pendingDeletion now svc.rooms
  { svc with pendingDeletion := r.1, rooms := r.2 }

/-- `RoomService::getOrCreateRoom`: cleanup, cancel any pending
deletion of this room, return the existing room or create one with
the supplied password. -/
def RoomService.getOrCreateRoom (svc : RoomService) (roomId password : String)
    (now : Nat) : RoomService :=
  let svc1 := svc.cleanupExpired now
  let svc2 := { svc1 with pendingDeletion := mapErase svc1.pendingDeletion roomId }
  match mapFind svc2.rooms roomId with
  | some _ => svc2
  | none => { svc2 with rooms := mapInsert svc2.rooms roomId (Room.create roomId password) }

/-- `RoomService::getRoom`: cleanup, then plain lookup. -/
def RoomService.getRoom (svc : RoomService) (roomId : String) (now : Nat) :
    RoomService × Option Room :=
  let svc1 := svc.cleanupExpired now
  (svc1, mapFind svc1.rooms roomId)

/-- `RoomService::deleteRoom`: erase the room from the registry
(the pending-deletion map is not touched). -/
def RoomService.deleteRoom (svc : RoomService) (roomId : String) : RoomService :=
  { svc with rooms := mapErase svc.rooms roomId }

/-- `RoomService::getNextColor`: take the palette entry at the current
index and advance the index modulo the palette size. -/
def RoomService.getNextColor (svc : RoomService) : String × RoomService :=
  (svc.colorPalette.getD svc.nextColorIndex "",
   { svc with nextColorIndex := (svc.nextColorIndex + 1) % svc.colorPalette.length })

/-- Outcome of `RoomService::joinRoom`: the registry afterwards, the
returned `JoinResult`, the frames sent directly to the joiner (in
order) and the broadcast `(recipient, message)` events. -/
structure JoinOutcome where
  svc : RoomService
  result : JoinResult
  sentToJoiner : List Msg
  broadcastEvents : List (String × Msg)
deriving Repr

/-- `RoomService::joinRoom` (`room_service.hpp` lines 130-185):
get-or-create, password check, capacity check, allocate id and
colour, add the participant, send `welcome` then the `room_state`
snapshot to the joiner, broadcast `user_joined` to the others.
The `none` branch of the room lookup is unreachable (the room was
just created); it mirrors a null `shared_ptr` and fails internally. -/
def RoomService.joinRoom (svc0 : RoomService) (roomId userName password : String)
    (alive : Bool) (now : Nat) : JoinOutcome :=
  let svc := svc0.getOrCreateRoom roomId password now
  match mapFind svc.rooms roomId with
  | none =>
      { svc := svc, result := JoinResult.Failure ErrorCode.InternalError
        sentToJoiner := [], broadcastEvents := [] }
  | some room =>
    if !room.validatePassword password then
      { svc := svc, result := JoinResult.Failure ErrorCode.InvalidPassword
        sentToJoiner := [], broadcastEvents := [] }
    else if room.isFull then
      { svc := svc, result := JoinResult.Failure ErrorCode.RoomFull
        sentToJoiner := [], broadcastEvents := [] }
    else
      let oderId := "user-" ++ toString svc.uidCounter
      let svc1 := { svc with uidCounter := svc.uidCounter + 1 }
      let colorDraw := svc1.getNextColor
      let color := colorDraw.1
      let svc2 := colorDraw.2
      let userInfo : UserInfo :=
        { userId := oderId, userName := userName, color := color
          sessionAlive := alive, lastActivity := now, isActive := true }
      let added := room.addParticipant oderId userInfo now
      if !added.1 then
        { svc := svc2, result := JoinResult.Failure ErrorCode.RoomFull
          sentToJoiner := [], broadcastEvents := [] }
      else
        let room1 := added.2
        let existingUsers := room1.getParticipants
        let welcomeDraw := room1.nextSequence
        let welcomeMsg :=
          Msg.welcome oderId color
            (existingUsers.map (fun u => (u.userId, u.userName, u.color)))
            welcomeDraw.1
        let room2 := welcomeDraw.2
        let stateMsg := getSnapshot room2
        let joinDraw := room2.nextSequence
        let joinMsg := Msg.userJoined oderId userName color joinDraw.1
        let room3 := joinDraw.2
        { svc := { svc2 with rooms := mapInsert svc2.rooms roomId room3 }
          result := JoinResult.Success oderId color
          sentToJoiner := [welcomeMsg, stateMsg]
          broadcastEvents := room3.broadcast joinMsg oderId }

/-- `RoomService::leaveRoom`: look the room up (with cleanup), remove
the participant, broadcast `user_left` to everyone remaining, and
when the room is now empty schedule it for deletion after the grace
period. (`PresenceService::removeUser` only drops the user's rate
bucket and does not touch the registry.) -/
def RoomService.leaveRoom (svc0 : RoomService) (roomId oderId : String) (now : Nat) :
    RoomService × List (String × Msg) :=
  let looked := svc0.getRoom roomId now
  match looked.2 with
  | none => (looked.1, [])
  | some room =>
    let svc := looked.1
    let room1 := room.removeParticipant oderId
    let drawn := room1.nextSequence
    let leaveMsg := Msg.userLeft oderId drawn.1
    let room2 := drawn.2
    let events := room2.broadcast leaveMsg ""
    let svc1 := { svc with rooms := mapInsert svc.rooms roomId room2 }
    if room2.isEmpty then
      ({ svc1 with pendingDeletion :=
          mapInsert svc1.pendingDeletion roomId (now + svc1.gracePeriod) }, events)
    else (svc1, events)

/-- The registry operations of the claim about `pendingDeletion`,
each stamped with the time at which it runs. -/
inductive RegOp where
  | getOrCreate (roomId password : String) (now : Nat)
  | get (roomId : String) (now : Nat)
  | join (roomId userName password : String) (alive : Bool) (now : Nat)
  | leave (roomId oderId : String) (now : Nat)
  | deleteRoom (roomId : String)
deriving DecidableEq, Repr

/-- Apply one registry operation, discarding its outputs. -/
def applyRegOp (svc : RoomService) : RegOp → RoomService
  | .getOrCreate roomId password now => svc.getOrCreateRoom roomId password now
  | .get roomId now => (svc.getRoom roomId now).1
  | .join roomId userName password alive now =>
      (svc.joinRoom roomId userName password alive now).svc
  | .leave roomId oderId now => (svc.leaveRoom roomId oderId now).1
  | .deleteRoom roomId => svc.deleteRoom roomId

/-- Apply a sequence of registry operations from left to right. -/
def applyRegOps (svc : RoomService) : List RegOp → RoomService
  | [] => svc
  | op :: rest => applyRegOps (applyRegOp svc op) rest

/-- Whether the operation is the explicit `deleteRoom` call. -/
def RegOp.isDeleteRoom : RegOp → Bool
  | .deleteRoom _ => true
  | _ => false

/-- Truncation toward zero of a rational, modelling C++
`static_cast<int64_t>` on a `double`. -/
def truncQ (q : ℚ) : ℤ :=
  if q < 0 then -(Int.floor (-q)) else Int.floor q

/-- A token bucket (`struct TokenBucket` in `rate_limiter.hpp`);
`lastRefill` is a time in seconds. -/
structure TokenBucket where
  tokens : ℚ
  lastRefill : ℚ
deriving DecidableEq, Repr

/-- The token-bucket limiter (`class RateLimiter` in
`rate_limiter.hpp`). -/
structure RateLimiter where
  tokensPerSecond : ℚ
  maxTokens : ℚ
  buckets : List (String × TokenBucket)
deriving Repr

/-- A limiter with the given policy and no buckets. -/
def RateLimiter.mk0 (tokensPerSecond maxTokens : ℚ) : RateLimiter :=
  { tokensPerSecond := tokensPerSecond, maxTokens := maxTokens, buckets := [] }

/-- `RateLimiter::refillBucket`: add `elapsed · rate` tokens, clamped
to `maxTokens`, and stamp `lastRefill := now`. -/
def RateLimiter.refillBucket (rl : RateLimiter) (b : TokenBucket) (now : ℚ) :
    TokenBucket :=
  { tokens := min (b.tokens + (now - b.lastRefill) * rl.tokensPerSecond) rl.maxTokens
    lastRefill := now }

/-- `RateLimiter::getOrCreateBucket`: the existing bucket, or a fresh
one holding `maxTokens` created at the current time. -/
def RateLimiter.getOrCreateBucket (rl : RateLimiter) (uid : String) (now : ℚ) :
    TokenBucket :=
  match mapFind rl.buckets uid with
  | some b => b
  | none => { tokens := rl.maxTokens, lastRefill := now }

/-- `RateLimiter::tryConsume(userId)`: refill, then consume one token
when at least one is available. -/
def RateLimiter.tryConsume1 (rl : RateLimiter) (uid : String) (now : ℚ) :
    Bool × RateLimiter :=
  let b := rl.refillBucket (rl.getOrCreateBucket uid now) now
  if 1 ≤ b.tokens then
    (true, { rl with buckets := mapInsert rl.buckets uid { b with tokens := b.tokens - 1 } })
  else
    (false, { rl with buckets := mapInsert rl.buckets uid b })

/-- `RateLimiter::tryConsume(userId, count)`: refill, then consume
`count` tokens when the bucket holds at least `count`. -/
def RateLimiter.tryConsumeN (rl : RateLimiter) (uid : String) (count : ℚ) (now : ℚ) :
    Bool × RateLimiter :=
  let b := rl.refillBucket (rl.getOrCreateBucket uid now) now
  if count ≤ b.tokens then
    (true, { rl with buckets := mapInsert rl.buckets uid { b with tokens := b.tokens - count } })
  else
    (false, { rl with buckets := mapInsert rl.buckets uid b })

/-- `RateLimiter::canConsume`: refill and compare to one token,
without consuming. -/
def RateLimiter.canConsume (rl : RateLimiter) (uid : String) (now : ℚ) :
    Bool × RateLimiter :=
  let b := rl.refillBucket (rl.getOrCreateBucket uid now) now
  (1 ≤ b.tokens, { rl with buckets := mapInsert rl.buckets uid b })

/-- `RateLimiter::getTokens`: `none` when the user has no bucket;
otherwise refill the existing bucket and report its tokens. -/
def RateLimiter.getTokens (rl : RateLimiter) (uid : String) (now : ℚ) :
    Option ℚ × RateLimiter :=
  match mapFind rl.buckets uid with
  | none => (none, rl)
  | some b0 =>
      let b := rl.refillBucket b0 now
      (some b.tokens, { rl with buckets := mapInsert rl.buckets uid b })

/-- `RateLimiter::getWaitTimeMs`: after refilling, `0` when a token is
available; otherwise `(1 - tokens)/rate` seconds converted to
milliseconds and truncated by the `int64_t` cast. -/
def RateLimiter.getWaitTimeMs (rl : RateLimiter) (uid : String) (now : ℚ) :
    ℤ × RateLimiter :=
  let b := rl.refillBucket (rl.getOrCreateBucket uid now) now
  let rl1 := { rl with buckets := mapInsert rl.buckets uid b }
  if 1 ≤ b.tokens then (0, rl1)
  else (truncQ ((1 - b.tokens) / rl.tokensPerSecond * 1000), rl1)

/-- `RateLimiter::reset`: refill an existing bucket to capacity. -/
def RateLimiter.reset (rl : RateLimiter) (uid : String) (now : ℚ) : RateLimiter :=
  match mapFind rl.buckets uid with
  | none => rl
  | some _ =>
      { rl with buckets := mapInsert rl.buckets uid ⟨rl.maxTokens, now⟩ }

/-- `RateLimiter::cleanup`: drop every bucket idle longer than
`maxAge` seconds. -/
def RateLimiter.cleanup (rl : RateLimiter) (maxAge : ℚ) (now : ℚ) : RateLimiter :=
  { rl with buckets := rl.buckets.filter (fun p => decide (now - p.2.lastRefill ≤ maxAge)) }

/-- The limiter operations named by the bucket-invariant claim, each
stamped with the time at which it runs. -/
inductive RlOp where
  | tryConsume1 (uid : String) (now : ℚ)
  | tryConsumeN (uid : String) (count : ℚ) (now : ℚ)
  | canConsume (uid : String) (now : ℚ)
  | getTokens (uid : String) (now : ℚ)
  | getWaitTime (uid : String) (now : ℚ)
  | reset (uid : String) (now : ℚ)
  | cleanup (maxAge : ℚ) (now : ℚ)
deriving Repr

/-- The time at which an operation runs. -/
def RlOp.time : RlOp → ℚ
  | .tryConsume1 _ now => now
  | .tryConsumeN _ _ now => now
  | .canConsume _ now => now
  | .getTokens _ now => now
  | .getWaitTime _ now => now
  | .reset _ now => now
  | .cleanup _ now => now

/-- Apply one limiter operation, discarding its result. -/
def applyRlOp (rl : RateLimiter) : RlOp → RateLimiter
  | .tryConsume1 uid now => (rl.tryConsume1 uid now).2
  | .tryConsumeN uid count now => (rl.tryConsumeN uid count now).2
  | .canConsume uid now => (rl.canConsume uid now).2
  | .getTokens uid now => (rl.getTokens uid now).2
  | .getWaitTime uid now => (rl.getWaitTimeMs uid now).2
  | .reset uid now => rl.reset uid now
  | .cleanup maxAge now => rl.cleanup maxAge now

/-- Apply a sequence of limiter operations from left to right. -/
def applyRlOps (rl : RateLimiter) : List RlOp → RateLimiter
  | [] => rl
  | op :: rest => applyRlOps (applyRlOp rl op) rest

/-- Well-formed operation sequence starting no earlier than `t`:
timestamps never go backwards (`steady_clock` is monotone) and every
`tryConsume` count is nonnegative. -/
def RlOpsOK : ℚ → List RlOp → Prop
  | _, [] => True
  | t, op :: rest =>
      t ≤ op.time ∧
      (match op with
       | .tryConsumeN _ count _ => 0 ≤ count
       | _ => True) ∧
      RlOpsOK op.time rest

/-- The bucket invariant of the claim, together with the clock bound
that makes it inductive: every bucket holds between `0` and `cap`
tokens and was last refilled no later than `t`. -/
def BucketsBounded (cap t : ℚ) (rl : RateLimiter) : Prop :=
  ∀ p ∈ rl.buckets, 0 ≤ p.2.tokens ∧ p.2.tokens ≤ cap ∧ p.2.lastRefill ≤ t

/-! ## Helper lemmas about the association-list map model -/

theorem mapFind_mapInsert_self {α : Type} (m : List (String × α)) (k : String) (v : α) :
    mapFind (mapInsert m k v) k = some v := by
  induction m with
  | nil => simp [mapInsert, mapFind, if_pos rfl]
  | cons p rest ih =>
    obtain ⟨k', w⟩ := p
    by_cases h : k' = k
    · simp [mapInsert, if_pos h, mapFind, if_pos rfl]
    · simp [mapInsert, if_neg h, mapFind, if_neg h]
      exact ih

theorem mapFind_mapInsert_ne {α : Type} (m : List (String × α)) (k k' : String) (v : α)
    (h : k' ≠ k) : mapFind (mapInsert m k v) k' = mapFind m k' := by
  induction m with
  | nil => simp [mapInsert, mapFind, if_neg (Ne.symm h)]
  | cons p rest ih =>
    obtain ⟨k0, w⟩ := p
    by_cases h0 : k0 = k
    · subst h0
      simp [mapInsert, if_pos rfl, mapFind, if_neg (Ne.symm h)]
    · by_cases h1 : k0 = k'
      · simp [mapInsert, if_neg h0, mapFind, if_pos h1]
      · simp [mapInsert, if_neg h0, mapFind, if_neg h1]
        exact ih

theorem mapInsert_length_of_find {α : Type} (m : List (String × α)) (k : String)
    (v w : α) (h : mapFind m k = some w) :
    (mapInsert m k v).length = m.length := by
  induction m with
  | nil => simp [mapFind] at h
  | cons p rest ih =>
    obtain ⟨k0, w0⟩ := p
    by_cases h0 : k0 = k
    · simp [mapInsert, if_pos h0, List.length_cons]
    · simp [mapFind, if_neg h0] at h
      simp [mapInsert, if_neg h0, List.length_cons, ih h]

theorem mapFind_some_mem {α : Type} (m : List (String × α)) (k : String) (v : α)
    (h : mapFind m k = some v) : (k, v) ∈ m := by
  induction m with
  | nil => simp [mapFind] at h
  | cons p rest ih =>
    obtain ⟨k0, w0⟩ := p
    by_cases h0 : k0 = k
    · subst h0
      simp [mapFind, if_pos rfl, Option.some.injEq] at h
      subst h
      exact List.mem_cons_self _ _
    · simp [mapFind, if_neg h0] at h
      exact List.mem_cons_of_mem _ (ih h)

theorem mapFind_mapErase_self {α : Type} (m : List (String × α)) (k : String) :
    mapFind (mapErase m k) k = none := by
  induction m with
  | nil => simp [mapErase, mapFind]
  | cons p rest ih =>
    obtain ⟨k0, w0⟩ := p
    by_cases h0 : k0 = k
    · simp [mapErase, if_pos h0]
      exact ih
    · simp [mapErase, if_neg h0, mapFind, if_neg h0]
      exact ih

theorem mapFind_mapErase_ne {α : Type} (m : List (String × α)) (k k' : String)
    (h : k' ≠ k) : mapFind (mapErase m k) k' = mapFind m k' := by
  induction m with
  | nil => simp [mapErase]
  | cons p rest ih =>
    obtain ⟨k0, w0⟩ := p
    by_cases h0 : k0 = k
    · subst h0
      simp [mapErase, if_pos rfl, mapFind, if_neg (Ne.symm h)]
      exact ih
    · by_cases h1 : k0 = k'
      · simp [mapErase, if_neg h0, mapFind, if_pos h1]
      · simp [mapErase, if_neg h0, mapFind, if_neg h1]
        exact ih

theorem mem_mapInsert_of_find {α : Type} (m : List (String × α)) (k : String) (v : α) :
    (k, v) ∈ mapInsert m k v :=
  mapFind_some_mem _ _ _ (mapFind_mapInsert_self m k v)

/-! ## Helper lemmas about stroke lists -/

theorem updateFirstStroke_length (l : List Stroke) (sid : String) (f : Stroke → Stroke) :
    (updateFirstStroke l sid f).length = l.length := by
  induction l with
  | nil => rfl
  | cons s rest ih =>
    by_cases h : s.strokeId = sid
    · simp [updateFirstStroke, h]
    · simp [updateFirstStroke, h, ih]

theorem updateFirstStroke_of_find_none (l : List Stroke) (sid : String)
    (f : Stroke → Stroke) (h : l.find? (fun s => s.strokeId = sid) = none) :
    updateFirstStroke l sid f = l := by
  induction l with
  | nil => rfl
  | cons s rest ih =>
    rw [List.find?_cons] at h
    by_cases h0 : s.strokeId = sid
    · simp [h0] at h
    · simp only [decide_eq_true_eq, h0, decide_False] at h ⊢
      simp only [updateFirstStroke, if_neg h0]
      rw [ih h]

theorem find?_updateFirstStroke_self (l : List Stroke) (sid : String)
    (f : Stroke → Stroke) (s : Stroke)
    (h : l.find? (fun t => t.strokeId = sid) = some s)
    (hf : (f s).strokeId = s.strokeId) :
    (updateFirstStroke l sid f).find? (fun t => t.strokeId = sid) = some (f s) := by
  induction l with
  | nil => simp at h
  | cons t rest ih =>
    by_cases h0 : t.strokeId = sid
    · rw [List.find?_cons_of_pos _ (by simp [h0])] at h
      obtain rfl : t = s := by injection h
      simp only [updateFirstStroke, if_pos h0]
      exact List.find?_cons_of_pos _ (by simp [hf, h0])
    · rw [List.find?_cons_of_neg _ (by simp [h0])] at h
      simp only [updateFirstStroke, if_neg h0]
      rw [List.find?_cons_of_neg _ (by simp [h0])]
      exact ih h

theorem updateFirstStroke_get? (l : List Stroke) (sid : String) (f : Stroke → Stroke)
    (i : Nat) :
    (updateFirstStroke l sid f).get? i = l.get? i ∨
      ∃ s, l.get? i = some s ∧ (updateFirstStroke l sid f).get? i = some (f s) := by
  induction l generalizing i with
  | nil => left; rfl
  | cons s rest ih =>
    by_cases h0 : s.strokeId = sid
    · simp only [updateFirstStroke]
      rw [if_pos h0]
      cases i with
      | zero => right; exact ⟨s, rfl, rfl⟩
      | succ j => left; rfl
    · simp only [updateFirstStroke]
      rw [if_neg h0]
      cases i with
      | zero => left; rfl
      | succ j => simpa using ih j

/-- `List.find?` with the first-match semantics of `Room::getStroke`:
the found stroke sits at an index before which no stroke has the id. -/
theorem find?_eq_earliest (l : List Stroke) (sid : String) (s : Stroke)
    (h : l.find? (fun t => t.strokeId = sid) = some s) :
    ∃ i : Fin l.length, l.get i = s ∧ s.strokeId = sid ∧
      ∀ j : Fin l.length, (j : Nat) < (i : Nat) → (l.get j).strokeId ≠ sid := by
  induction l with
  | nil => simp at h
  | cons t rest ih =>
    by_cases h0 : t.strokeId = sid
    · rw [List.find?_cons_of_pos _ (by simp [h0])] at h
      obtain rfl : t = s := by injection h
      exact ⟨⟨0, by simp⟩, rfl, h0, fun j hj => absurd hj (by simp)⟩
    · rw [List.find?_cons_of_neg _ (by simp [h0])] at h
      obtain ⟨i, hget, hsid, hbefore⟩ := ih h
      refine ⟨⟨i + 1, Nat.succ_lt_succ i.2⟩, by simpa using hget, hsid, ?_⟩
      intro j hj
      match j with
      | ⟨0, _⟩ => simpa using h0
      | ⟨j' + 1, hj'⟩ =>
        simpa using hbefore ⟨j', by simpa using hj'⟩ (by simpa using hj)

/-! ## Shared demo data for witnesses and counterexamples -/

/-- A participant with the given id, an alive session, and default
activity fields. -/
def demoUser (uid : String) : UserInfo :=
  ⟨uid, uid, "#00F", true, 0, true⟩

/-- A room named `R` with live participants `a` and `b` and no strokes. -/
def demoRoom : Room :=
  { Room.create "R" "" with
    participants := [("a", demoUser "a"), ("b", demoUser "b")] }

/-- `demoRoom` holding one incomplete stroke `s1` by `a` and one
complete stroke `s2` by `b`. -/
def demoRoomStrokes : Room :=
  { demoRoom with
    strokes := [⟨"s1", "a", [⟨1, 2⟩], "#000", 2, false, 1⟩,
                ⟨"s2", "b", [⟨3, 4⟩], "#000", 2, true, 2⟩]
    nextSeq := 3 }

/-! ## C10: re-adding an existing participant -/

/-- C10: when `addParticipant` is called with a userId already present
in a room that is not full, it returns true, replaces that user's
`UserInfo`, resets the user's cursor to the origin, leaves the
participant count unchanged and does not disturb other entries. -/
theorem claim_C10 (room : Room) (uid : String) (info : UserInfo) (now : Nat)
    (old : UserInfo)
    (hmem : mapFind room.participants uid = some old)
    (hfull : room.isFull = false) :
    (room.addParticipant uid info now).1 = true ∧
    mapFind (room.addParticipant uid info now).2.participants uid = some info ∧
    (room.addParticipant uid info now).2.participants.length =
      room.participants.length ∧
    mapFind (room.addParticipant uid info now).2.cursors uid =
      some ⟨uid, 0, 0, now, true⟩ ∧
    (∀ uid2, uid2 ≠ uid →
      mapFind (room.addParticipant uid info now).2.participants uid2 =
        mapFind room.participants uid2) := by
  have hlt : ¬ room.maxUsers ≤ room.participants.length := by
    simpa [Room.isFull] using hfull
  unfold Room.addParticipant
  rw [if_neg hlt]
  refine ⟨rfl, mapFind_mapInsert_self _ _ _, ?_, mapFind_mapInsert_self _ _ _, ?_⟩
  · exact mapInsert_length_of_find _ _ _ _ hmem
  · intro uid2 hne
    exact mapFind_mapInsert_ne _ _ _ _ hne

/-- Witness for C10: re-adding `a` to the two-user demo room. -/
theorem claim_C10_witness :
    (demoRoom.addParticipant "a" (demoUser "x") 7).1 = true ∧
    mapFind (demoRoom.addParticipant "a" (demoUser "x") 7).2.participants "a" =
      some (demoUser "x") ∧
    (demoRoom.addParticipant "a" (demoUser "x") 7).2.participants.length =
      demoRoom.participants.length ∧
    mapFind (demoRoom.addParticipant "a" (demoUser "x") 7).2.cursors "a" =
      some ⟨"a", 0, 0, 7, true⟩ ∧
    (∀ uid2, uid2 ≠ "a" →
      mapFind (demoRoom.addParticipant "a" (demoUser "x") 7).2.participants uid2 =
        mapFind demoRoom.participants uid2) :=
  claim_C10 demoRoom "a" (demoUser "x") 7 (demoUser "a") (by decide) (by decide)

/-! ## C3: handleStrokeAdd error and success behaviour -/

/-- C3: `handleStrokeAdd` returns `INVALID_STROKE` leaving the room
untouched when the stroke is absent, foreign or complete; returns
`STROKE_TOO_LARGE` leaving the room untouched when the appended
point count would exceed 10 000; and otherwise succeeds, appending
the points in order (one sequence draw for the broadcast). -/
theorem claim_C3 (room : Room) (uid sid : String) (points : List Point) :
    (room.getStroke sid = none →
      handleStrokeAdd room uid sid points =
        ⟨some ErrorCode.InvalidStroke, room, []⟩) ∧
    (∀ s, room.getStroke sid = some s → s.oderId ≠ uid →
      handleStrokeAdd room uid sid points =
        ⟨some ErrorCode.InvalidStroke, room, []⟩) ∧
    (∀ s, room.getStroke sid = some s → s.complete = true →
      handleStrokeAdd room uid sid points =
        ⟨some ErrorCode.InvalidStroke, room, []⟩) ∧
    (∀ s, room.getStroke sid = some s → s.oderId = uid → s.complete = false →
      MaxPointsPerStroke < s.points.length + points.length →
      handleStrokeAdd room uid sid points =
        ⟨some ErrorCode.StrokeTooLarge, room, []⟩) ∧
    (∀ s, room.getStroke sid = some s → s.oderId = uid → s.complete = false →
      s.points.length + points.length ≤ MaxPointsPerStroke →
      (handleStrokeAdd room uid sid points).err = none ∧
      (handleStrokeAdd room uid sid points).room.getStroke sid =
        some (s.addPoints points) ∧
      (handleStrokeAdd room uid sid points).room.strokes =
        updateFirstStroke room.strokes sid (fun t => t.addPoints points) ∧
      (handleStrokeAdd room uid sid points).room.nextSeq = room.nextSeq + 1) := by
  refine ⟨?_, ?_, ?_, ?_, ?_⟩
  · intro hnone
    unfold handleStrokeAdd
    rw [hnone]
  · intro s hs hown
    unfold handleStrokeAdd
    rw [hs]
    simp only [if_pos hown]
  · intro s hs hcomp
    unfold handleStrokeAdd
    rw [hs]
    by_cases hown : s.oderId ≠ uid
    · simp only [if_pos hown]
    · simp only [if_neg hown, hcomp, if_pos]
  · intro s hs hown hcomp hbig
    unfold handleStrokeAdd
    simp only [hs]
    have hown2 : ¬ s.oderId ≠ uid := by simpa using hown
    have hc : ¬ (s.complete = true) := by simp [hcomp]
    have hbig2 : MaxPointsPerStroke < s.pointCount + points.length := by
      simpa [Stroke.pointCount] using hbig
    rw [if_neg hown2, if_neg hc, if_pos hbig2]
  · intro s hs hown hcomp hsmall
    unfold handleStrokeAdd
    simp only [hs]
    have hown2 : ¬ s.oderId ≠ uid := by simpa using hown
    have hc : ¬ (s.complete = true) := by simp [hcomp]
    have hbig2 : ¬ MaxPointsPerStroke < s.pointCount + points.length := by
      simpa [Stroke.pointCount] using Nat.not_lt.mpr hsmall
    rw [if_neg hown2, if_neg hc, if_neg hbig2]
    refine ⟨rfl, ?_, rfl, rfl⟩
    exact find?_updateFirstStroke_self room.strokes sid _ s hs rfl

/-- Witness for C3: appending two points to the open stroke `s1`. -/
theorem claim_C3_witness :
    (handleStrokeAdd demoRoomStrokes "a" "s1" [⟨5, 5⟩, ⟨6, 6⟩]).err = none ∧
    (handleStrokeAdd demoRoomStrokes "a" "s1" [⟨5, 5⟩, ⟨6, 6⟩]).room.getStroke "s1" =
      some (Stroke.addPoints ⟨"s1", "a", [⟨1, 2⟩], "#000", 2, false, 1⟩ [⟨5, 5⟩, ⟨6, 6⟩]) ∧
    (handleStrokeAdd demoRoomStrokes "a" "s1" [⟨5, 5⟩, ⟨6, 6⟩]).room.strokes =
      updateFirstStroke demoRoomStrokes.strokes "s1" (fun t => t.addPoints [⟨5, 5⟩, ⟨6, 6⟩]) ∧
    (handleStrokeAdd demoRoomStrokes "a" "s1" [⟨5, 5⟩, ⟨6, 6⟩]).room.nextSeq =
      demoRoomStrokes.nextSeq + 1 :=
  (claim_C3 demoRoomStrokes "a" "s1" [⟨5, 5⟩, ⟨6, 6⟩]).2.2.2.2
    ⟨"s1", "a", [⟨1, 2⟩], "#000", 2, false, 1⟩ (by decide) rfl rfl (by decide)

/-! ## C8: handleStrokeStart with duplicate ids -/

/-- C8: `handleStrokeStart` never returns an error; below the stroke
cap it appends the new stroke even when the id already exists in the
room (the count of strokes with that id grows by one); and
`getStroke` always resolves an id to the earliest stroke bearing it. -/
theorem claim_C8 (room : Room) (uid sid color : String) (width : ℚ) :
    (handleStrokeStart room uid sid color width).err = none ∧
    (room.strokes.length < room.maxStrokes →
      (handleStrokeStart room uid sid color width).room.strokes =
        room.strokes ++ [⟨sid, uid, [], color, width, false, room.nextSeq⟩] ∧
      (handleStrokeStart room uid sid color width).room.strokes.countP
          (fun t => t.strokeId = sid) =
        room.strokes.countP (fun t => t.strokeId = sid) + 1) ∧
    (∀ (r : Room) (sid2 : String) (s : Stroke), r.getStroke sid2 = some s →
      ∃ i : Fin r.strokes.length, r.strokes.get i = s ∧ s.strokeId = sid2 ∧
        ∀ j : Fin r.strokes.length, (j : Nat) < (i : Nat) →
          (r.strokes.get j).strokeId ≠ sid2) := by
  refine ⟨rfl, ?_, ?_⟩
  · intro hlen
    have hstr : (handleStrokeStart room uid sid color width).room.strokes =
        room.strokes ++ [⟨sid, uid, [], color, width, false, room.nextSeq⟩] := by
      unfold handleStrokeStart Room.addStroke Room.pruneStrokesIfNeeded Room.nextSequence
      have hle : ¬ room.maxStrokes < (room.strokes ++
          [(⟨sid, uid, [], color, width, false, room.nextSeq⟩ : Stroke)]).length := by
        simp only [List.length_append, List.length_singleton]
        omega
      simp only [hle, if_false]
    refine ⟨hstr, ?_⟩
    rw [hstr, List.countP_append]
    simp
  · intro r sid2 s hs
    exact find?_eq_earliest r.strokes sid2 s hs

/-- Witness for C8: starting a stroke with the id `s1`, already taken
in the demo room, appends a second `s1` stroke. -/
theorem claim_C8_witness :
    (handleStrokeStart demoRoomStrokes "b" "s1" "#111" 3).room.strokes =
      demoRoomStrokes.strokes ++
        [⟨"s1", "b", [], "#111", 3, false, demoRoomStrokes.nextSeq⟩] ∧
    (handleStrokeStart demoRoomStrokes "b" "s1" "#111" 3).room.strokes.countP
        (fun t => t.strokeId = "s1") =
      demoRoomStrokes.strokes.countP (fun t => t.strokeId = "s1") + 1 :=
  (claim_C8 demoRoomStrokes "b" "s1" "#111" 3).2.1 (by decide)

/-! ## C9: handleStrokeEnd and monotonicity of the complete flag -/

/-- Index-wise preservation of the `complete` flag between two stroke
lists. -/
def completePreserved (before after : List Stroke) : Prop :=
  ∀ (i : Nat) (s s' : Stroke), before.get? i = some s → after.get? i = some s' →
    s.complete = true → s'.complete = true

theorem completePreserved_refl (l : List Stroke) : completePreserved l l := by
  intro i s s' h h' hc
  rw [h] at h'
  injection h' with h'
  subst h'
  exact hc

theorem completePreserved_updateFirstStroke (l : List Stroke) (sid : String)
    (f : Stroke → Stroke) (hf : ∀ s, s.complete = true → (f s).complete = true) :
    completePreserved l (updateFirstStroke l sid f) := by
  intro i s s' h h' hc
  rcases updateFirstStroke_get? l sid f i with heq | ⟨t, ht, ht'⟩
  · rw [heq, h] at h'
    injection h' with h'
    subst h'
    exact hc
  · rw [ht] at h
    injection h with h
    subst h
    rw [ht'] at h'
    injection h' with h'
    subst h'
    exact hf _ hc

theorem handleStrokeAdd_strokes (room : Room) (uid sid : String) (points : List Point) :
    (handleStrokeAdd room uid sid points).room.strokes = room.strokes ∨
    (handleStrokeAdd room uid sid points).room.strokes =
      updateFirstStroke room.strokes sid (fun t => t.addPoints points) := by
  unfold handleStrokeAdd
  cases h : room.getStroke sid with
  | none => left; rfl
  | some s =>
    by_cases hown : s.oderId ≠ uid
    · left
      simp only [if_pos hown]
    · by_cases hc : s.complete = true
      · left
        simp only [if_neg hown, if_pos hc]
      · by_cases hbig : MaxPointsPerStroke < s.pointCount + points.length
        · left
          simp only [if_neg hown, if_neg hc, if_pos hbig]
        · right
          simp only [if_neg hown, if_neg hc, if_neg hbig]
          rfl

theorem handleStrokeEnd_strokes (room : Room) (uid sid : String) :
    (handleStrokeEnd room uid sid).room.strokes = room.strokes ∨
    (handleStrokeEnd room uid sid).room.strokes =
      updateFirstStroke room.strokes sid (fun t => t.finish) := by
  unfold handleStrokeEnd
  cases h : room.getStroke sid with
  | none => left; rfl
  | some s =>
    by_cases hown : s.oderId ≠ uid
    · left
      simp only [if_pos hown]
    · right
      simp only [if_neg hown]
      rfl

theorem handleStrokeMove_strokes (room : Room) (uid sid : String) (dx dy : ℚ) :
    (handleStrokeMove room uid sid dx dy).room.strokes = room.strokes ∨
    (handleStrokeMove room uid sid dx dy).room.strokes =
      updateFirstStroke room.strokes sid (fun t => t.translate dx dy) := by
  unfold handleStrokeMove
  cases h : room.getStroke sid with
  | none => left; rfl
  | some s =>
    by_cases hown : s.oderId ≠ uid
    · left
      simp only [if_pos hown]
    · by_cases hc : s.complete = true
      · right
        have hcond : ¬ ((!s.complete) = true) := by simp [hc]
        simp only [if_neg hown, if_neg hcond]
        rfl
      · left
        have hcond : (!s.complete) = true := by
          simp only [Bool.not_eq_true] at hc
          simp [hc]
        simp only [if_neg hown, if_pos hcond]

/-- C9: `handleStrokeEnd` errors with `INVALID_STROKE` exactly when
the stroke is absent or foreign; re-ending an already complete stroke
by its author succeeds again (broadcasting another `stroke_end`)
while the stroke stays complete and unchanged; and no board operation
ever turns a `complete = true` flag back to `false`. -/
theorem claim_C9 (room : Room) (uid sid : String) :
    ((handleStrokeEnd room uid sid).err = some ErrorCode.InvalidStroke ↔
      room.getStroke sid = none ∨
        (∃ s, room.getStroke sid = some s ∧ s.oderId ≠ uid)) ∧
    (∀ s, room.getStroke sid = some s → s.oderId = uid → s.complete = true →
      (handleStrokeEnd room uid sid).err = none ∧
      (handleStrokeEnd room uid sid).room.getStroke sid = some s ∧
      (handleStrokeEnd room uid sid).sent =
        (handleStrokeEnd room uid sid).room.broadcast
          (Msg.strokeEnd sid uid room.nextSeq) uid) ∧
    (∀ points, completePreserved room.strokes
      (handleStrokeAdd room uid sid points).room.strokes) ∧
    completePreserved room.strokes (handleStrokeEnd room uid sid).room.strokes ∧
    (∀ dx dy, completePreserved room.strokes
      (handleStrokeMove room uid sid dx dy).room.strokes) ∧
    (∀ color width,
      ∀ s' ∈ (handleStrokeStart room uid sid color width).room.strokes,
        s' ∈ room.strokes ∨ s'.complete = false) := by
  refine ⟨?_, ?_, ?_, ?_, ?_, ?_⟩
  · cases h : room.getStroke sid with
    | none =>
      unfold handleStrokeEnd
      simp only [h]
      simp
    | some s =>
      by_cases hown : s.oderId ≠ uid
      · unfold handleStrokeEnd
        simp only [h, if_pos hown]
        simp only [true_iff]
        exact Or.inr ⟨s, rfl, hown⟩
      · unfold handleStrokeEnd
        simp only [h, if_neg hown]
        constructor
        · intro hfalse
          exact absurd hfalse (by simp)
        · rintro (hnone | ⟨s', hs', hown'⟩)
          · exact absurd hnone (by simp)
          · injection hs' with hs'
            subst hs'
            exact absurd hown' hown
  · intro s hs hown hcomp
    unfold handleStrokeEnd
    simp only [hs]
    have hown2 : ¬ s.oderId ≠ uid := by simpa using hown
    rw [if_neg hown2]
    have hfinish : s.finish = s := by
      cases s
      simp only [Stroke.finish] at hcomp ⊢
      simp [hcomp]
    refine ⟨rfl, ?_, rfl⟩
    have hkey := find?_updateFirstStroke_self room.strokes sid (fun t => t.finish) s hs rfl
    exact hkey.trans (congrArg some hfinish)
  · intro points
    rcases handleStrokeAdd_strokes room uid sid points with h | h
    · rw [h]; exact completePreserved_refl _
    · rw [h]
      exact completePreserved_updateFirstStroke _ _ _
        (fun s hc => by simp [Stroke.addPoints, hc])
  · rcases handleStrokeEnd_strokes room uid sid with h | h
    · rw [h]; exact completePreserved_refl _
    · rw [h]
      exact completePreserved_updateFirstStroke _ _ _
        (fun s hc => by simp [Stroke.finish])
  · intro dx dy
    rcases handleStrokeMove_strokes room uid sid dx dy with h | h
    · rw [h]; exact completePreserved_refl _
    · rw [h]
      exact completePreserved_updateFirstStroke _ _ _
        (fun s hc => by simp [Stroke.translate, hc])
  · intro color width s' hmem
    unfold handleStrokeStart Room.addStroke Room.pruneStrokesIfNeeded at hmem
    by_cases hlen : room.maxStrokes <
        (room.strokes ++ [(⟨sid, uid, [], color, width, false, room.nextSeq⟩ : Stroke)]).length
    · simp only [Room.nextSequence] at hmem
      rw [if_pos hlen] at hmem
      have hmem2 := List.mem_of_mem_drop hmem
      rcases List.mem_append.mp hmem2 with h | h
      · exact Or.inl h
      · right
        simp only [List.mem_singleton] at h
        subst h
        rfl
    · simp only [Room.nextSequence] at hmem
      rw [if_neg hlen] at hmem
      rcases List.mem_append.mp hmem with h | h
      · exact Or.inl h
      · right
        simp only [List.mem_singleton] at h
        subst h
        rfl

/-- Witness for C9: re-ending the complete stroke `s2` by its author
`b` succeeds and leaves it unchanged. -/
theorem claim_C9_witness :
    (handleStrokeEnd demoRoomStrokes "b" "s2").err = none ∧
    (handleStrokeEnd demoRoomStrokes "b" "s2").room.getStroke "s2" =
      some ⟨"s2", "b", [⟨3, 4⟩], "#000", 2, true, 2⟩ ∧
    (handleStrokeEnd demoRoomStrokes "b" "s2").sent =
      (handleStrokeEnd demoRoomStrokes "b" "s2").room.broadcast
        (Msg.strokeEnd "s2" "b" demoRoomStrokes.nextSeq) "b" :=
  (claim_C9 demoRoomStrokes "b" "s2").2.1
    ⟨"s2", "b", [⟨3, 4⟩], "#000", 2, true, 2⟩ (by decide) rfl rfl

/-! ## C1: sequence numbers drawn by handleStrokeStart -/

theorem addStroke_nextSeq (r : Room) (s : Stroke) :
    (r.addStroke s).nextSeq = r.nextSeq := by
  unfold Room.addStroke Room.pruneStrokesIfNeeded
  split <;> rfl

theorem handleStrokeStart_strokes_of_lt (room : Room) (uid sid color : String)
    (width : ℚ) (hlen : room.strokes.length < room.maxStrokes) :
    (handleStrokeStart room uid sid color width).room.strokes =
      room.strokes ++ [⟨sid, uid, [], color, width, false, room.nextSeq⟩] := by
  unfold handleStrokeStart Room.addStroke Room.pruneStrokesIfNeeded Room.nextSequence
  have hle : ¬ room.maxStrokes < (room.strokes ++
      [(⟨sid, uid, [], color, width, false, room.nextSeq⟩ : Stroke)]).length := by
    simp only [List.length_append, List.length_singleton]
    omega
  simp only [hle, if_false]

/-- C1 (amended): `handleStrokeStart` draws exactly one sequence
number: the stroke's `seq` is `room.nextSeq` (the single
`nextSequence()` draw, after which the counter has advanced by one)
and the broadcast `stroke_start` carries that same `seq`, not a
second freshly allocated one. -/
theorem claim_C1_amended (room : Room) (uid sid color : String) (width : ℚ) :
    (handleStrokeStart room uid sid color width).err = none ∧
    (handleStrokeStart room uid sid color width).room.nextSeq = room.nextSeq + 1 ∧
    (handleStrokeStart room uid sid color width).sent =
      (handleStrokeStart room uid sid color width).room.broadcast
        (Msg.strokeStart sid uid color width room.nextSeq) uid ∧
    (room.strokes.length < room.maxStrokes →
      (handleStrokeStart room uid sid color width).room.strokes =
        room.strokes ++ [⟨sid, uid, [], color, width, false, room.nextSeq⟩]) := by
  refine ⟨rfl, ?_, rfl, ?_⟩
  · exact addStroke_nextSeq _ _
  · intro hlen
    exact handleStrokeStart_strokes_of_lt room uid sid color width hlen

/-- Counterexample to C1 as stated: in the two-user demo room the
stroke is registered with seq 1, the broadcast `stroke_start`
message also carries seq 1 (not a distinct second draw), and the
sequence counter advanced by only one. -/
theorem claim_C1_counterexample :
    (handleStrokeStart demoRoom "a" "s1" "#000" 2).room.strokes.map Stroke.seq = [1] ∧
    (handleStrokeStart demoRoom "a" "s1" "#000" 2).sent.map (fun e => e.2.seqOf) = [1] ∧
    (handleStrokeStart demoRoom "a" "s1" "#000" 2).sent.map (fun e => e.2) =
      [Msg.strokeStart "s1" "a" "#000" 2 1] ∧
    (handleStrokeStart demoRoom "a" "s1" "#000" 2).room.nextSeq = 2 := by
  decide

/-- Witness for C1 (amended): the demo room instance. -/
theorem claim_C1_amended_witness :
    (handleStrokeStart demoRoom "a" "s1" "#000" 2).room.strokes =
      demoRoom.strokes ++ [⟨"s1", "a", [], "#000", 2, false, demoRoom.nextSeq⟩] :=
  (claim_C1_amended demoRoom "a" "s1" "#000" 2).2.2.2 (by decide)

/-! ## C4: FIFO stroke eviction -/

/-- A sequence of `Room::addStroke` calls. -/
def addStrokes (room : Room) : List Stroke → Room
  | [] => room
  | s :: rest => addStrokes (room.addStroke s) rest

theorem addStroke_length_le (room : Room) (s : Stroke) :
    (room.addStroke s).strokes.length ≤ room.maxStrokes ∨
      (room.addStroke s).strokes.length = room.strokes.length + 1 := by
  unfold Room.addStroke Room.pruneStrokesIfNeeded
  split
  next h =>
    left
    simp only [List.length_drop, List.length_append, List.length_singleton]
    simp only [List.length_append, List.length_singleton] at h
    omega
  next h =>
    right
    simp only [List.length_append, List.length_singleton]

theorem addStroke_maxStrokes (room : Room) (s : Stroke) :
    (room.addStroke s).maxStrokes = room.maxStrokes := by
  unfold Room.addStroke Room.pruneStrokesIfNeeded
  split <;> rfl

theorem addStroke_strokes (room : Room) (s : Stroke) :
    (room.addStroke s).strokes =
      (room.strokes ++ [s]).drop ((room.strokes.length + 1) - room.maxStrokes) := by
  unfold Room.addStroke Room.pruneStrokesIfNeeded
  split
  next h =>
    simp only [List.length_append, List.length_singleton]
  next h =>
    simp only [List.length_append, List.length_singleton] at h
    have h0 : room.strokes.length + 1 - room.maxStrokes = 0 := by omega
    rw [h0, List.drop_zero]

theorem addStrokes_strokes (L : List Stroke) (room : Room)
    (hstart : room.strokes.length ≤ room.maxStrokes) :
    (addStrokes room L).strokes =
      (room.strokes ++ L).drop ((room.strokes ++ L).length - room.maxStrokes) ∧
    (addStrokes room L).maxStrokes = room.maxStrokes := by
  induction L generalizing room with
  | nil =>
    have h0 : room.strokes.length - room.maxStrokes = 0 := by omega
    simp [addStrokes, h0]
  | cons s rest ih =>
    have hlen1 : (room.addStroke s).strokes.length ≤ (room.addStroke s).maxStrokes := by
      rw [addStroke_maxStrokes]
      rcases addStroke_length_le room s with h | h
      · exact h
      · rw [addStroke_strokes, List.length_drop, List.length_append,
          List.length_singleton]
        omega
    obtain ⟨ih1, ih2⟩ := ih (room.addStroke s) hlen1
    rw [addStroke_maxStrokes] at ih1 ih2
    refine ⟨?_, by simpa [addStrokes] using ih2⟩
    show (addStrokes (room.addStroke s) rest).strokes = _
    rw [ih1, addStroke_strokes]
    set a := room.strokes with ha
    set m := room.maxStrokes with hm
    set k := a.length + 1 - m with hk
    have hkle : k ≤ (a ++ [s]).length := by
      rw [List.length_append, List.length_singleton]
      omega
    rw [← List.drop_append_of_le_length hkle]
    rw [List.length_drop, List.drop_drop]
    have hassoc : a ++ [s] ++ rest = a ++ s :: rest := by simp
    rw [hassoc]
    congr 1
    simp only [List.length_append, List.length_cons]
    omega

/-- C4: every `addStroke` call leaves the room at or below its stroke
cap, and a room that starts empty with the 1000-stroke cap holds,
after 1500 `addStroke` calls, exactly the most recent 1000 strokes in
insertion order (the first 500 are evicted FIFO). -/
theorem claim_C4 :
    (∀ (room : Room) (s : Stroke),
      (room.addStroke s).strokes.length ≤ room.maxStrokes) ∧
    (∀ (room : Room) (L : List Stroke), room.strokes = [] →
      room.maxStrokes = 1000 → L.length = 1500 →
      (addStrokes room L).strokes = L.drop 500 ∧
      (addStrokes room L).strokes.length = 1000) := by
  constructor
  · intro room s
    unfold Room.addStroke Room.pruneStrokesIfNeeded
    split
    next h =>
      simp only [List.length_drop, List.length_append, List.length_singleton]
      simp only [List.length_append, List.length_singleton] at h
      omega
    next h =>
      simp only [List.length_append, List.length_singleton]
      simp only [List.length_append, List.length_singleton] at h
      omega
  · intro room L hempty hmax hlen
    have hstart : room.strokes.length ≤ room.maxStrokes := by
      rw [hempty, hmax]
      simp
    obtain ⟨h1, _⟩ := addStrokes_strokes L room hstart
    rw [hempty, hmax] at h1
    simp only [List.nil_append] at h1
    rw [hlen] at h1
    have h2 : (addStrokes room L).strokes = L.drop 500 := by simpa using h1
    refine ⟨h2, ?_⟩
    rw [h2, List.length_drop, hlen]

/-- A throwaway stroke for the eviction witness. -/
def demoStroke : Stroke :=
  ⟨"sX", "a", [], "#000", 2, false, 0⟩

/-- Witness for C4: 1500 identical strokes added to a fresh room leave
the last 1000 of them, in order. -/
theorem claim_C4_witness :
    (addStrokes (Room.create "R" "") (List.replicate 1500 demoStroke)).strokes =
      (List.replicate 1500 demoStroke).drop 500 ∧
    (addStrokes (Room.create "R" "") (List.replicate 1500 demoStroke)).strokes.length =
      1000 :=
  claim_C4.2 (Room.create "R" "") (List.replicate 1500 demoStroke) rfl rfl
    (List.length_replicate 1500 demoStroke)

/-! ## C2: joinRoom -/

theorem broadcast_mem_iff (r : Room) (msg : Msg) (ex : String) (e : String × Msg) :
    e ∈ r.broadcast msg ex ↔
      (∃ info, (e.1, info) ∈ r.participants ∧ info.sessionAlive = true) ∧
        e.1 ≠ ex ∧ e.2 = msg := by
  unfold Room.broadcast
  rw [List.mem_map]
  constructor
  · rintro ⟨p, hp, hpe⟩
    rw [List.mem_filter] at hp
    obtain ⟨hpmem, hcond⟩ := hp
    rw [Bool.and_eq_true, decide_eq_true_eq] at hcond
    obtain ⟨hne, halive⟩ := hcond
    obtain rfl : (p.1, msg) = e := hpe
    exact ⟨⟨p.2, by simpa using hpmem, halive⟩, hne, rfl⟩
  · rintro ⟨⟨info, hmem, halive⟩, hne, hmsg⟩
    refine ⟨(e.1, info), ?_, ?_⟩
    · rw [List.mem_filter]
      exact ⟨hmem, by simp [hne, halive]⟩
    · cases e
      simp_all

theorem getOrCreateRoom_find (svc : RoomService) (roomId password : String) (now : Nat) :
    ∃ room, mapFind (svc.getOrCreateRoom roomId password now).rooms roomId = some room := by
  simp only [RoomService.getOrCreateRoom]
  split
  next r heq => exact ⟨r, heq⟩
  next heq => exact ⟨_, mapFind_mapInsert_self _ _ _⟩

/-- C2: `joinRoom` with a non-empty room password that differs from
the supplied one fails with `INVALID_PASSWORD`, adding nothing
(the registry is exactly the `getOrCreateRoom` result); otherwise on
success the joiner receives `welcome` (whose users array contains the
joiner) followed by the `room_state` snapshot, and `user_joined` is
broadcast exactly to the live participants other than the joiner. -/
theorem claim_C2 (svc : RoomService) (roomId userName password : String)
    (alive : Bool) (now : Nat) (room : Room)
    (hroom : mapFind (svc.getOrCreateRoom roomId password now).rooms roomId = some room) :
    (room.password ≠ "" → password ≠ room.password →
      svc.joinRoom roomId userName password alive now =
        ⟨svc.getOrCreateRoom roomId password now,
         JoinResult.Failure ErrorCode.InvalidPassword, [], []⟩) ∧
    (room.validatePassword password = true → room.isFull = false →
      (svc.joinRoom roomId userName password alive now).result.success = true ∧
      (∃ users wseq strokes sseq,
        (svc.joinRoom roomId userName password alive now).sentToJoiner =
          [Msg.welcome (svc.joinRoom roomId userName password alive now).result.oderId
             (svc.joinRoom roomId userName password alive now).result.color users wseq,
           Msg.roomState strokes sseq] ∧
        ((svc.joinRoom roomId userName password alive now).result.oderId, userName,
          (svc.joinRoom roomId userName password alive now).result.color) ∈ users) ∧
      (∃ jseq,
        (∀ e ∈ (svc.joinRoom roomId userName password alive now).broadcastEvents,
          e.1 ≠ (svc.joinRoom roomId userName password alive now).result.oderId ∧
          e.2 = Msg.userJoined
            (svc.joinRoom roomId userName password alive now).result.oderId userName
            (svc.joinRoom roomId userName password alive now).result.color jseq) ∧
        (∀ roomAfter,
          mapFind (svc.joinRoom roomId userName password alive now).svc.rooms roomId =
            some roomAfter →
          ∀ p ∈ roomAfter.participants,
            p.1 ≠ (svc.joinRoom roomId userName password alive now).result.oderId →
            p.2.sessionAlive = true →
            (p.1, Msg.userJoined
              (svc.joinRoom roomId userName password alive now).result.oderId userName
              (svc.joinRoom roomId userName password alive now).result.color jseq) ∈
              (svc.joinRoom roomId userName password alive now).broadcastEvents))) := by
  constructor
  · intro hpw hne
    have hvf : room.validatePassword password = false := by
      unfold Room.validatePassword
      rw [if_neg hpw]
      simp [Ne.symm hne]
    have hc1 : (!room.validatePassword password) = true := by simp [hvf]
    simp only [RoomService.joinRoom, hroom]
    rw [if_pos hc1]
  · intro hv hfull
    have hlt : ¬ room.maxUsers ≤ room.participants.length := by
      simpa [Room.isFull] using hfull
    have hadd : ∀ (uid : String) (info : UserInfo),
        (room.addParticipant uid info now).1 = true := by
      intro uid info
      unfold Room.addParticipant
      rw [if_neg hlt]
    have hadd2 : ∀ (uid : String) (info : UserInfo),
        (room.addParticipant uid info now).2 =
          { room with
            participants := mapInsert room.participants uid info
            cursors := mapInsert room.cursors uid ⟨uid, 0, 0, now, true⟩ } := by
      intro uid info
      unfold Room.addParticipant
      rw [if_neg hlt]
    have hc1 : ¬ ((!room.validatePassword password) = true) := by simp [hv]
    have hc2 : ¬ (room.isFull = true) := by simp [hfull]
    simp only [RoomService.joinRoom, hroom]
    rw [if_neg hc1, if_neg hc2]
    simp only [hadd, Bool.not_true, hadd2]
    rw [if_neg (by exact Bool.false_ne_true)]
    refine ⟨rfl, ?_, ?_⟩
    · refine ⟨_, _, _, _, rfl, ?_⟩
      simp only [JoinResult.Success]
      unfold Room.getParticipants
      rw [List.map_map]
      exact List.mem_map.mpr ⟨_, mem_mapInsert_of_find _ _ _, rfl⟩
    · refine ⟨room.nextSeq + 1, ?_, ?_⟩
      · intro e he
        rw [broadcast_mem_iff] at he
        obtain ⟨⟨info, hmem, halive⟩, hne, hmsg⟩ := he
        exact ⟨hne, hmsg⟩
      · intro roomAfter hfindAfter p hp hne halive
        rw [mapFind_mapInsert_self] at hfindAfter
        injection hfindAfter with hfindAfter
        subst hfindAfter
        rw [broadcast_mem_iff]
        refine ⟨⟨p.2, ?_, halive⟩, hne, rfl⟩
        simpa using hp

/-- Witness for C2: `alice` joins the fresh room `R` of an empty
registry; the success branch of the claim applies. -/
theorem claim_C2_witness :
    (RoomService.init.joinRoom "R" "alice" "" true 0).result.success = true ∧
    (∃ users wseq strokes sseq,
      (RoomService.init.joinRoom "R" "alice" "" true 0).sentToJoiner =
        [Msg.welcome (RoomService.init.joinRoom "R" "alice" "" true 0).result.oderId
           (RoomService.init.joinRoom "R" "alice" "" true 0).result.color users wseq,
         Msg.roomState strokes sseq] ∧
      ((RoomService.init.joinRoom "R" "alice" "" true 0).result.oderId, "alice",
        (RoomService.init.joinRoom "R" "alice" "" true 0).result.color) ∈ users) ∧
    (∃ jseq,
      (∀ e ∈ (RoomService.init.joinRoom "R" "alice" "" true 0).broadcastEvents,
        e.1 ≠ (RoomService.init.joinRoom "R" "alice" "" true 0).result.oderId ∧
        e.2 = Msg.userJoined
          (RoomService.init.joinRoom "R" "alice" "" true 0).result.oderId "alice"
          (RoomService.init.joinRoom "R" "alice" "" true 0).result.color jseq) ∧
      (∀ roomAfter,
        mapFind (RoomService.init.joinRoom "R" "alice" "" true 0).svc.rooms "R" =
          some roomAfter →
        ∀ p ∈ roomAfter.participants,
          p.1 ≠ (RoomService.init.joinRoom "R" "alice" "" true 0).result.oderId →
          p.2.sessionAlive = true →
          (p.1, Msg.userJoined
            (RoomService.init.joinRoom "R" "alice" "" true 0).result.oderId "alice"
            (RoomService.init.joinRoom "R" "alice" "" true 0).result.color jseq) ∈
            (RoomService.init.joinRoom "R" "alice" "" true 0).broadcastEvents)) :=
  (claim_C2 RoomService.init "R" "alice" "" true 0 (Room.create "R" "")
    (by decide)).2 (by decide) (by decide)

/-! ## C5: the pendingDeletion invariant -/

/-- The keys of an association list are duplicate-free (always true of
the reachable states of an `unordered_map` model). -/
def nodupKeys {α : Type} (m : List (String × α)) : Prop :=
  (m.map (fun p => p.1)).Nodup

theorem mapErase_sublist {α : Type} (m : List (String × α)) (k : String) :
    (mapErase m k).Sublist m := by
  induction m with
  | nil => simp [mapErase]
  | cons p rest ih =>
    obtain ⟨k0, v0⟩ := p
    by_cases h0 : k0 = k
    · simp only [mapErase, if_pos h0]
      exact ih.cons _
    · simp only [mapErase, if_neg h0]
      exact ih.cons₂ _

theorem mapErase_mem {α : Type} (m : List (String × α)) (k : String)
    (p : String × α) (h : p ∈ mapErase m k) : p ∈ m ∧ p.1 ≠ k := by
  induction m with
  | nil => simp [mapErase] at h
  | cons q rest ih =>
    obtain ⟨k0, v0⟩ := q
    by_cases h0 : k0 = k
    · simp only [mapErase, if_pos h0] at h
      obtain ⟨h1, h2⟩ := ih h
      exact ⟨List.mem_cons_of_mem _ h1, h2⟩
    · simp only [mapErase, if_neg h0] at h
      rcases List.mem_cons.mp h with h | h
      · subst h
        exact ⟨List.mem_cons_self _ _, h0⟩
      · obtain ⟨h1, h2⟩ := ih h
        exact ⟨List.mem_cons_of_mem _ h1, h2⟩

theorem mapInsert_mem_elim {α : Type} (m : List (String × α)) (k : String) (v : α)
    (p : String × α) (h : p ∈ mapInsert m k v) : p = (k, v) ∨ p ∈ m := by
  induction m with
  | nil => simp [mapInsert] at h; exact Or.inl h
  | cons q rest ih =>
    obtain ⟨k0, v0⟩ := q
    by_cases h0 : k0 = k
    · simp only [mapInsert, if_pos h0] at h
      rcases List.mem_cons.mp h with h | h
      · exact Or.inl h
      · exact Or.inr (List.mem_cons_of_mem _ h)
    · simp only [mapInsert, if_neg h0] at h
      rcases List.mem_cons.mp h with h | h
      · subst h
        exact Or.inr (List.mem_cons_self _ _)
      · rcases ih h with h | h
        · exact Or.inl h
        · exact Or.inr (List.mem_cons_of_mem _ h)

theorem nodupKeys_mapInsert {α : Type} (m : List (String × α)) (k : String) (v : α)
    (h : nodupKeys m) : nodupKeys (mapInsert m k v) := by
  induction m with
  | nil => simp [mapInsert, nodupKeys]
  | cons q rest ih =>
    obtain ⟨k0, v0⟩ := q
    unfold nodupKeys at h
    rw [List.map_cons, List.nodup_cons] at h
    obtain ⟨hnot, hrest⟩ := h
    by_cases h0 : k0 = k
    · subst h0
      unfold nodupKeys
      have hins : mapInsert ((k0, v0) :: rest) k0 v = (k0, v) :: rest := by
        unfold mapInsert
        rw [if_pos rfl]
      rw [hins, List.map_cons, List.nodup_cons]
      exact ⟨hnot, hrest⟩
    · unfold nodupKeys
      simp only [mapInsert, if_neg h0, List.map_cons, List.nodup_cons]
      refine ⟨?_, ih hrest⟩
      intro hk0
      rcases List.mem_map.mp hk0 with ⟨p, hp, hpe⟩
      rcases mapInsert_mem_elim rest k v p hp with h | h
      · subst h
        exact h0 hpe.symm
      · exact hnot (List.mem_map.mpr ⟨p, h, hpe⟩)

theorem nodupKeys_sublist {α : Type} {m m' : List (String × α)}
    (hsub : m'.Sublist m) (h : nodupKeys m) : nodupKeys m' :=
  List.Nodup.sublist (hsub.map (fun p => p.1)) h

theorem removeExpired_pending_sublist (pending : List (String × Nat)) (now : Nat)
    (rooms : List (String × Room)) :
    (removeExpired pending now rooms).1.Sublist pending := by
  induction pending generalizing rooms with
  | nil => simp [removeExpired]
  | cons p rest ih =>
    obtain ⟨rid, dl⟩ := p
    by_cases h : dl ≤ now
    · simp only [removeExpired, if_pos h]
      exact (ih _).cons _
    · simp only [removeExpired, if_neg h]
      exact (ih _).cons₂ _

theorem removeExpired_pending_mem (pending : List (String × Nat)) (now : Nat)
    (rooms : List (String × Room)) (p : String × Nat)
    (h : p ∈ (removeExpired pending now rooms).1) :
    p ∈ pending ∧ ¬ p.2 ≤ now := by
  induction pending generalizing rooms with
  | nil => simp [removeExpired] at h
  | cons q rest ih =>
    obtain ⟨rid, dl⟩ := q
    by_cases h0 : dl ≤ now
    · simp only [removeExpired, if_pos h0] at h
      obtain ⟨h1, h2⟩ := ih _ h
      exact ⟨List.mem_cons_of_mem _ h1, h2⟩
    · simp only [removeExpired, if_neg h0] at h
      rcases List.mem_cons.mp h with h | h
      · subst h
        exact ⟨List.mem_cons_self _ _, h0⟩
      · obtain ⟨h1, h2⟩ := ih _ h
        exact ⟨List.mem_cons_of_mem _ h1, h2⟩

theorem removeExpired_find (pending : List (String × Nat)) (now : Nat)
    (rooms : List (String × Room)) (key : String)
    (hkey : ∀ p ∈ pending, p.2 ≤ now → p.1 ≠ key) :
    mapFind (removeExpired pending now rooms).2 key = mapFind rooms key := by
  induction pending generalizing rooms with
  | nil => rfl
  | cons q rest ih =>
    obtain ⟨rid, dl⟩ := q
    by_cases h0 : dl ≤ now
    · simp only [removeExpired, if_pos h0]
      have hrid : rid ≠ key := hkey (rid, dl) (List.mem_cons_self _ _) h0
      rw [ih (mapErase rooms rid) (fun p hp hple => hkey p (List.mem_cons_of_mem _ hp) hple)]
      exact mapFind_mapErase_ne rooms rid key (Ne.symm hrid)
    · simp only [removeExpired, if_neg h0]
      exact ih rooms (fun p hp hple => hkey p (List.mem_cons_of_mem _ hp) hple)

/-- The registry invariant of the claim: every pending-deletion entry
names a room that is still registered and empty (with the
key-uniqueness of the pending map that keeps it inductive). -/
def RegInv (svc : RoomService) : Prop :=
  nodupKeys svc.pendingDeletion ∧
  ∀ p ∈ svc.pendingDeletion,
    ∃ r, mapFind svc.rooms p.1 = some r ∧ r.participants = []

theorem regInv_init : RegInv RoomService.init := by
  constructor
  · simp [nodupKeys, RoomService.init]
  · intro p hp
    simp [RoomService.init] at hp

theorem regInv_cleanupExpired (svc : RoomService) (now : Nat) (h : RegInv svc) :
    RegInv (svc.cleanupExpired now) := by
  obtain ⟨hnd, hmain⟩ := h
  simp only [RoomService.cleanupExpired]
  constructor
  · exact nodupKeys_sublist (removeExpired_pending_sublist _ _ _) hnd
  · intro p hp
    obtain ⟨hpmem, hpnotexp⟩ := removeExpired_pending_mem _ _ _ p hp
    obtain ⟨r, hr, hre⟩ := hmain p hpmem
    refine ⟨r, ?_, hre⟩
    have hkey : ∀ q ∈ svc.pendingDeletion, q.2 ≤ now → q.1 ≠ p.1 := by
      intro q hq hqexp hqkey
      have hqp : q = p := by
        have hinj := List.inj_on_of_nodup_map hnd
        exact hinj hq hpmem hqkey
      subst hqp
      exact hpnotexp hqexp
    exact (removeExpired_find svc.pendingDeletion now svc.rooms p.1 hkey).trans hr

theorem getOrCreateRoom_pending_find (svc : RoomService) (roomId password : String)
    (now : Nat) :
    mapFind (svc.getOrCreateRoom roomId password now).pendingDeletion roomId = none := by
  simp only [RoomService.getOrCreateRoom]
  split
  next r heq => exact mapFind_mapErase_self _ _
  next heq => exact mapFind_mapErase_self _ _

theorem getOrCreateRoom_pending_ne (svc : RoomService) (roomId password : String)
    (now : Nat) :
    ∀ p ∈ (svc.getOrCreateRoom roomId password now).pendingDeletion, p.1 ≠ roomId := by
  simp only [RoomService.getOrCreateRoom]
  split
  next r heq => intro p hp; exact (mapErase_mem _ _ p hp).2
  next heq => intro p hp; exact (mapErase_mem _ _ p hp).2

theorem regInv_getOrCreateRoom (svc : RoomService) (roomId password : String)
    (now : Nat) (h : RegInv svc) :
    RegInv (svc.getOrCreateRoom roomId password now) := by
  obtain ⟨hnd, hmain⟩ := regInv_cleanupExpired svc now h
  simp only [RoomService.getOrCreateRoom]
  split
  next r heq =>
    constructor
    · exact nodupKeys_sublist (mapErase_sublist _ _) hnd
    · intro p hp
      obtain ⟨hpmem, hpne⟩ := mapErase_mem _ _ p hp
      exact hmain p hpmem
  next heq =>
    constructor
    · exact nodupKeys_sublist (mapErase_sublist _ _) hnd
    · intro p hp
      obtain ⟨hpmem, hpne⟩ := mapErase_mem _ _ p hp
      obtain ⟨r, hr, hre⟩ := hmain p hpmem
      exact ⟨r, (mapFind_mapInsert_ne _ _ _ _ hpne).trans hr, hre⟩

theorem regInv_joinRoom (svc : RoomService) (roomId userName password : String)
    (alive : Bool) (now : Nat) (h : RegInv svc) :
    RegInv (svc.joinRoom roomId userName password alive now).svc := by
  have h1 := regInv_getOrCreateRoom svc roomId password now h
  have hne := getOrCreateRoom_pending_ne svc roomId password now
  simp only [RoomService.joinRoom]
  cases hfind : mapFind (svc.getOrCreateRoom roomId password now).rooms roomId with
  | none =>
    simp only [hfind]
    exact h1
  | some room =>
    simp only [hfind]
    split
    next => exact h1
    next =>
      split
      next => exact h1
      next =>
        split
        next => exact h1
        next =>
          refine ⟨h1.1, ?_⟩
          intro p hp
          obtain ⟨r, hr, hre⟩ := h1.2 p hp
          exact ⟨r, (mapFind_mapInsert_ne _ _ _ _ (hne p hp)).trans hr, hre⟩

theorem regInv_leaveRoom (svc : RoomService) (roomId oderId : String) (now : Nat)
    (h : RegInv svc) :
    RegInv (svc.leaveRoom roomId oderId now).1 := by
  have h1 := regInv_cleanupExpired svc now h
  simp only [RoomService.leaveRoom, RoomService.getRoom]
  cases hfind : mapFind (svc.cleanupExpired now).rooms roomId with
  | none =>
    simp only [hfind]
    exact h1
  | some room =>
    simp only [hfind]
    split
    next hemp =>
      refine ⟨nodupKeys_mapInsert _ _ _ h1.1, ?_⟩
      intro p hp
      by_cases hpe : p.1 = roomId
      · refine ⟨(room.removeParticipant oderId).nextSequence.2, ?_, ?_⟩
        · rw [hpe]
          exact mapFind_mapInsert_self _ _ _
        · simpa [Room.isEmpty, Room.removeParticipant, List.isEmpty_iff] using hemp
      · rcases mapInsert_mem_elim _ _ _ p hp with hpeq | hpmem
        · exact absurd (congrArg Prod.fst hpeq) hpe
        · obtain ⟨r, hr, hre⟩ := h1.2 p hpmem
          exact ⟨r, (mapFind_mapInsert_ne _ _ _ _ hpe).trans hr, hre⟩
    next hemp =>
      refine ⟨h1.1, ?_⟩
      intro p hp
      obtain ⟨r, hr, hre⟩ := h1.2 p hp
      by_cases hpe : p.1 = roomId
      · exfalso
        rw [hpe, hfind] at hr
        injection hr with hr
        subst hr
        apply hemp
        simp [Room.isEmpty, Room.removeParticipant, Room.nextSequence, hre,
          List.isEmpty_iff, mapErase]
      · exact ⟨r, (mapFind_mapInsert_ne _ _ _ _ hpe).trans hr, hre⟩

theorem regInv_applyRegOp (svc : RoomService) (op : RegOp) (h : RegInv svc)
    (hop : op.isDeleteRoom = false) : RegInv (applyRegOp svc op) := by
  cases op with
  | getOrCreate roomId password now => exact regInv_getOrCreateRoom svc roomId password now h
  | get roomId now =>
    simpa [applyRegOp, RoomService.getRoom] using regInv_cleanupExpired svc now h
  | join roomId userName password alive now =>
    exact regInv_joinRoom svc roomId userName password alive now h
  | leave roomId oderId now => exact regInv_leaveRoom svc roomId oderId now h
  | deleteRoom roomId => simp [RegOp.isDeleteRoom] at hop

/-- C5 (amended): the invariant holds in every state reachable through
`getOrCreateRoom`, `getRoom`, `joinRoom` and `leaveRoom` — every
pending-deletion entry names a registered, empty room — and every
`getOrCreateRoom` call removes its roomId from `pendingDeletion`.
The explicit `deleteRoom` operation is excluded: it erases the room
but leaves a stale `pendingDeletion` entry behind. -/
theorem claim_C5_amended :
    (∀ (ops : List RegOp), (∀ op ∈ ops, op.isDeleteRoom = false) →
      RegInv (applyRegOps RoomService.init ops)) ∧
    (∀ (svc : RoomService) (roomId password : String) (now : Nat),
      mapFind (svc.getOrCreateRoom roomId password now).pendingDeletion roomId = none) := by
  constructor
  · have hgen : ∀ (ops : List RegOp) (svc : RoomService), RegInv svc →
        (∀ op ∈ ops, op.isDeleteRoom = false) → RegInv (applyRegOps svc ops) := by
      intro ops
      induction ops with
      | nil => intro svc h _; exact h
      | cons op rest ih =>
        intro svc h hops
        exact ih _ (regInv_applyRegOp svc op h (hops op (List.mem_cons_self _ _)))
          (fun o ho => hops o (List.mem_cons_of_mem _ ho))
    intro ops hops
    exact hgen ops RoomService.init regInv_init hops
  · exact getOrCreateRoom_pending_find

/-- Counterexample to C5 as stated: create room `R`, have the (absent)
user `u` leave — the room is empty, so a pending deletion is
scheduled — then call `deleteRoom("R")`. The roomId stays in
`pendingDeletion` although it is no longer in `rooms`. -/
theorem claim_C5_counterexample :
    (applyRegOps RoomService.init
      [RegOp.getOrCreate "R" "" 0, RegOp.leave "R" "u" 0,
       RegOp.deleteRoom "R"]).pendingDeletion = [("R", 60)] ∧
    mapFind (applyRegOps RoomService.init
      [RegOp.getOrCreate "R" "" 0, RegOp.leave "R" "u" 0,
       RegOp.deleteRoom "R"]).rooms "R" = none := by
  decide

/-- Witness for C5 (amended): a concrete create/leave trace without
`deleteRoom`, and a concrete `getOrCreateRoom` cancellation. -/
theorem claim_C5_amended_witness :
    RegInv (applyRegOps RoomService.init
      [RegOp.getOrCreate "R" "" 0, RegOp.leave "R" "u" 5]) ∧
    mapFind (RoomService.init.getOrCreateRoom "Q" "" 3).pendingDeletion "Q" = none :=
  ⟨claim_C5_amended.1 [RegOp.getOrCreate "R" "" 0, RegOp.leave "R" "u" 5] (by decide),
   claim_C5_amended.2 RoomService.init "Q" "" 3⟩

/-! ## C6: the token-bucket bounds -/

/-- The nonnegativity condition on an operation's consumed count. -/
def RlOp.countOK : RlOp → Prop
  | .tryConsumeN _ count _ => 0 ≤ count
  | _ => True

theorem refillBucket_bounds (rl : RateLimiter) (b : TokenBucket) (now : ℚ)
    (hrate : 0 ≤ rl.tokensPerSecond) (hcap : 0 ≤ rl.maxTokens)
    (htok : 0 ≤ b.tokens) (hlr : b.lastRefill ≤ now) :
    0 ≤ (rl.refillBucket b now).tokens ∧
    (rl.refillBucket b now).tokens ≤ rl.maxTokens ∧
    (rl.refillBucket b now).lastRefill = now := by
  unfold RateLimiter.refillBucket
  refine ⟨?_, min_le_right _ _, rfl⟩
  have hadd : 0 ≤ (now - b.lastRefill) * rl.tokensPerSecond :=
    mul_nonneg (sub_nonneg.mpr hlr) hrate
  exact le_min (by linarith) hcap

theorem getOrCreateBucket_bounds (rl : RateLimiter) (uid : String) (now t : ℚ)
    (hcap : 0 ≤ rl.maxTokens) (hinv : BucketsBounded rl.maxTokens t rl)
    (ht : t ≤ now) :
    0 ≤ (rl.getOrCreateBucket uid now).tokens ∧
    (rl.getOrCreateBucket uid now).tokens ≤ rl.maxTokens ∧
    (rl.getOrCreateBucket uid now).lastRefill ≤ now := by
  unfold RateLimiter.getOrCreateBucket
  cases hf : mapFind rl.buckets uid with
  | none => exact ⟨hcap, le_refl _, le_refl _⟩
  | some b =>
    obtain ⟨h1, h2, h3⟩ := hinv (uid, b) (mapFind_some_mem _ _ _ hf)
    exact ⟨h1, h2, le_trans h3 ht⟩

theorem bucketsBounded_mapInsert (cap t : ℚ) (m : List (String × TokenBucket))
    (k : String) (b : TokenBucket)
    (h : ∀ p ∈ m, 0 ≤ p.2.tokens ∧ p.2.tokens ≤ cap ∧ p.2.lastRefill ≤ t)
    (hb : 0 ≤ b.tokens ∧ b.tokens ≤ cap ∧ b.lastRefill ≤ t) :
    ∀ p ∈ mapInsert m k b, 0 ≤ p.2.tokens ∧ p.2.tokens ≤ cap ∧ p.2.lastRefill ≤ t := by
  intro p hp
  rcases mapInsert_mem_elim _ _ _ p hp with hpe | hpm
  · subst hpe
    exact hb
  · exact h p hpm

theorem bucketsBounded_mono (cap t t' : ℚ) (rl : RateLimiter) (ht : t ≤ t')
    (h : BucketsBounded cap t rl) : BucketsBounded cap t' rl := by
  intro p hp
  obtain ⟨h1, h2, h3⟩ := h p hp
  exact ⟨h1, h2, le_trans h3 ht⟩

theorem applyRlOp_policy (rl : RateLimiter) (op : RlOp) :
    (applyRlOp rl op).tokensPerSecond = rl.tokensPerSecond ∧
    (applyRlOp rl op).maxTokens = rl.maxTokens := by
  cases op with
  | tryConsume1 uid now =>
    simp only [applyRlOp, RateLimiter.tryConsume1]
    split <;> exact ⟨rfl, rfl⟩
  | tryConsumeN uid count now =>
    simp only [applyRlOp, RateLimiter.tryConsumeN]
    split <;> exact ⟨rfl, rfl⟩
  | canConsume uid now => exact ⟨rfl, rfl⟩
  | getTokens uid now =>
    simp only [applyRlOp, RateLimiter.getTokens]
    split <;> exact ⟨rfl, rfl⟩
  | getWaitTime uid now =>
    simp only [applyRlOp, RateLimiter.getWaitTimeMs]
    split <;> exact ⟨rfl, rfl⟩
  | reset uid now =>
    simp only [applyRlOp, RateLimiter.reset]
    split <;> exact ⟨rfl, rfl⟩
  | cleanup maxAge now => exact ⟨rfl, rfl⟩

theorem bucketsBounded_applyRlOp (rl : RateLimiter) (op : RlOp) (t : ℚ)
    (hrate : 0 ≤ rl.tokensPerSecond) (hcap : 0 ≤ rl.maxTokens)
    (hinv : BucketsBounded rl.maxTokens t rl) (ht : t ≤ op.time)
    (hcount : op.countOK) :
    BucketsBounded rl.maxTokens op.time (applyRlOp rl op) := by
  cases op with
  | tryConsume1 uid now =>
    simp only [RlOp.time] at ht ⊢
    obtain ⟨hb0, hb1, hb2⟩ := getOrCreateBucket_bounds rl uid now t hcap hinv ht
    obtain ⟨hr0, hr1, hr2⟩ :=
      refillBucket_bounds rl (rl.getOrCreateBucket uid now) now hrate hcap hb0 hb2
    simp only [applyRlOp, RateLimiter.tryConsume1]
    split
    next hc =>
      refine bucketsBounded_mapInsert _ _ _ _ _
        (bucketsBounded_mono _ _ _ _ ht hinv) ⟨?_, ?_, ?_⟩
      · show (0 : ℚ) ≤
          (rl.refillBucket (rl.getOrCreateBucket uid now) now).tokens - 1
        linarith
      · show (rl.refillBucket (rl.getOrCreateBucket uid now) now).tokens - 1 ≤
          rl.maxTokens
        linarith
      · show (rl.refillBucket (rl.getOrCreateBucket uid now) now).lastRefill ≤ now
        exact le_of_eq hr2
    next hc =>
      exact bucketsBounded_mapInsert _ _ _ _ _
        (bucketsBounded_mono _ _ _ _ ht hinv) ⟨hr0, hr1, le_of_eq hr2⟩
  | tryConsumeN uid count now =>
    simp only [RlOp.time] at ht ⊢
    simp only [RlOp.countOK] at hcount
    obtain ⟨hb0, hb1, hb2⟩ := getOrCreateBucket_bounds rl uid now t hcap hinv ht
    obtain ⟨hr0, hr1, hr2⟩ :=
      refillBucket_bounds rl (rl.getOrCreateBucket uid now) now hrate hcap hb0 hb2
    simp only [applyRlOp, RateLimiter.tryConsumeN]
    split
    next hc =>
      refine bucketsBounded_mapInsert _ _ _ _ _
        (bucketsBounded_mono _ _ _ _ ht hinv) ⟨?_, ?_, ?_⟩
      · show (0 : ℚ) ≤
          (rl.refillBucket (rl.getOrCreateBucket uid now) now).tokens - count
        linarith
      · show (rl.refillBucket (rl.getOrCreateBucket uid now) now).tokens - count ≤
          rl.maxTokens
        linarith
      · show (rl.refillBucket (rl.getOrCreateBucket uid now) now).lastRefill ≤ now
        exact le_of_eq hr2
    next hc =>
      exact bucketsBounded_mapInsert _ _ _ _ _
        (bucketsBounded_mono _ _ _ _ ht hinv) ⟨hr0, hr1, le_of_eq hr2⟩
  | canConsume uid now =>
    simp only [RlOp.time] at ht ⊢
    obtain ⟨hb0, hb1, hb2⟩ := getOrCreateBucket_bounds rl uid now t hcap hinv ht
    obtain ⟨hr0, hr1, hr2⟩ :=
      refillBucket_bounds rl (rl.getOrCreateBucket uid now) now hrate hcap hb0 hb2
    exact bucketsBounded_mapInsert _ _ _ _ _
      (bucketsBounded_mono _ _ _ _ ht hinv) ⟨hr0, hr1, le_of_eq hr2⟩
  | getTokens uid now =>
    simp only [RlOp.time] at ht ⊢
    simp only [applyRlOp, RateLimiter.getTokens]
    cases hf : mapFind rl.buckets uid with
    | none =>
      simp only [hf]
      exact bucketsBounded_mono _ _ _ _ ht hinv
    | some b =>
      simp only [hf]
      obtain ⟨h1, h2, h3⟩ := hinv (uid, b) (mapFind_some_mem _ _ _ hf)
      obtain ⟨hr0, hr1, hr2⟩ :=
        refillBucket_bounds rl b now hrate hcap h1 (le_trans h3 ht)
      exact bucketsBounded_mapInsert _ _ _ _ _
        (bucketsBounded_mono _ _ _ _ ht hinv) ⟨hr0, hr1, le_of_eq hr2⟩
  | getWaitTime uid now =>
    simp only [RlOp.time] at ht ⊢
    obtain ⟨hb0, hb1, hb2⟩ := getOrCreateBucket_bounds rl uid now t hcap hinv ht
    obtain ⟨hr0, hr1, hr2⟩ :=
      refillBucket_bounds rl (rl.getOrCreateBucket uid now) now hrate hcap hb0 hb2
    simp only [applyRlOp, RateLimiter.getWaitTimeMs]
    split
    next hc =>
      exact bucketsBounded_mapInsert _ _ _ _ _
        (bucketsBounded_mono _ _ _ _ ht hinv) ⟨hr0, hr1, le_of_eq hr2⟩
    next hc =>
      exact bucketsBounded_mapInsert _ _ _ _ _
        (bucketsBounded_mono _ _ _ _ ht hinv) ⟨hr0, hr1, le_of_eq hr2⟩
  | reset uid now =>
    simp only [RlOp.time] at ht ⊢
    simp only [applyRlOp, RateLimiter.reset]
    cases hf : mapFind rl.buckets uid with
    | none =>
      simp only [hf]
      exact bucketsBounded_mono _ _ _ _ ht hinv
    | some b =>
      simp only [hf]
      exact bucketsBounded_mapInsert _ _ _ _ _
        (bucketsBounded_mono _ _ _ _ ht hinv) ⟨hcap, le_refl _, le_refl _⟩
  | cleanup maxAge now =>
    simp only [RlOp.time] at ht ⊢
    intro p hp
    have hpm : p ∈ rl.buckets := List.mem_of_mem_filter hp
    obtain ⟨h1, h2, h3⟩ := hinv p hpm
    exact ⟨h1, h2, le_trans h3 ht⟩

theorem bucketsBounded_run (ops : List RlOp) (rl : RateLimiter) (t : ℚ)
    (hrate : 0 ≤ rl.tokensPerSecond) (hcap : 0 ≤ rl.maxTokens)
    (hinv : BucketsBounded rl.maxTokens t rl) (hops : RlOpsOK t ops) :
    ∀ p ∈ (applyRlOps rl ops).buckets,
      0 ≤ p.2.tokens ∧ p.2.tokens ≤ rl.maxTokens := by
  induction ops generalizing rl t with
  | nil =>
    intro p hp
    obtain ⟨h1, h2, _⟩ := hinv p hp
    exact ⟨h1, h2⟩
  | cons op rest ih =>
    obtain ⟨htime, hcount, hrest⟩ := hops
    have hcount2 : op.countOK := by
      cases op <;> exact hcount
    have hstep := bucketsBounded_applyRlOp rl op t hrate hcap hinv htime hcount2
    obtain ⟨hpol1, hpol2⟩ := applyRlOp_policy rl op
    have hres := ih (applyRlOp rl op) op.time (by rw [hpol1]; exact hrate)
      (by rw [hpol2]; exact hcap) (by rw [hpol2]; exact hstep) hrest
    intro p hp
    obtain ⟨h1, h2⟩ := hres p hp
    rw [hpol2] at h2
    exact ⟨h1, h2⟩

/-- C6 (amended): for a limiter with nonnegative refill rate and
capacity, under a monotone clock, every operation sequence whose
`tryConsume` counts are nonnegative leaves every bucket with
`0 ≤ tokens ≤ capacity` (tokens are clamped to capacity on refill).
A negative `count` is excluded: `tryConsume(userId, count)` only
checks `tokens ≥ count` before subtracting, so a negative count
pushes tokens above the capacity. -/
theorem claim_C6_amended (rate cap t0 : ℚ) (hrate : 0 ≤ rate) (hcap : 0 ≤ cap)
    (ops : List RlOp) (hops : RlOpsOK t0 ops) :
    ∀ p ∈ (applyRlOps (RateLimiter.mk0 rate cap) ops).buckets,
      0 ≤ p.2.tokens ∧ p.2.tokens ≤ cap := by
  have h := bucketsBounded_run ops (RateLimiter.mk0 rate cap) t0 hrate hcap
    (by intro p hp; simp [RateLimiter.mk0] at hp) hops
  intro p hp
  exact h p hp

/-- Counterexample to C6 as stated: one `tryConsume("u", -10)` on a
fresh `(20 Hz, burst 5)` limiter leaves the bucket with 15 tokens,
three times its capacity. -/
theorem claim_C6_counterexample :
    ((RateLimiter.mk0 20 5).tryConsumeN "u" (-10) 0).2.buckets =
      [("u", ⟨15, 0⟩)] ∧
    ¬ ((15 : ℚ) ≤ (RateLimiter.mk0 20 5).maxTokens) := by
  constructor
  · unfold RateLimiter.tryConsumeN RateLimiter.refillBucket RateLimiter.getOrCreateBucket
      RateLimiter.mk0
    norm_num [mapFind, mapInsert]
  · norm_num [RateLimiter.mk0]

/-- Witness for C6 (amended): after the trace consume-1 at t=0,
consume-2 at t=1, cleanup at t=2 on a (20, 5) limiter, the bucket of
`u` holds 3 tokens, within the claimed bounds. -/
theorem claim_C6_amended_witness :
    ("u", (⟨3, 1⟩ : TokenBucket)) ∈ (applyRlOps (RateLimiter.mk0 20 5)
      [RlOp.tryConsume1 "u" 0, RlOp.tryConsumeN "u" 2 1,
       RlOp.cleanup 300 2]).buckets ∧
    (0 ≤ (3 : ℚ) ∧ (3 : ℚ) ≤ 5) := by
  have hmem : ("u", (⟨3, 1⟩ : TokenBucket)) ∈ (applyRlOps (RateLimiter.mk0 20 5)
      [RlOp.tryConsume1 "u" 0, RlOp.tryConsumeN "u" 2 1,
       RlOp.cleanup 300 2]).buckets := by
    have hB : (applyRlOps (RateLimiter.mk0 20 5)
        [RlOp.tryConsume1 "u" 0, RlOp.tryConsumeN "u" 2 1,
         RlOp.cleanup 300 2]).buckets = [("u", (⟨3, 1⟩ : TokenBucket))] := by
      norm_num [applyRlOps, applyRlOp, RateLimiter.tryConsume1, RateLimiter.tryConsumeN,
        RateLimiter.cleanup, RateLimiter.refillBucket, RateLimiter.getOrCreateBucket,
        RateLimiter.mk0, mapFind, mapInsert, min_def]
    rw [hB]
    exact List.mem_singleton.mpr rfl
  exact ⟨hmem,
    claim_C6_amended 20 5 0 (by norm_num) (by norm_num)
      [RlOp.tryConsume1 "u" 0, RlOp.tryConsumeN "u" 2 1, RlOp.cleanup 300 2]
      (by refine ⟨by norm_num [RlOp.time], ?_, by norm_num [RlOp.time], ?_,
        by norm_num [RlOp.time], ?_, ?_⟩ <;> trivial)
      ("u", (⟨3, 1⟩ : TokenBucket)) hmem⟩

/-! ## C7: getWaitTimeMs -/

/-- C7 (amended): after the refill step, `getWaitTimeMs` returns 0
when at least one token is available and otherwise
`max(0, ⌊(1 − tokens)/refillRate · 1000⌋)` milliseconds — the
`int64_t` cast truncates, so the code returns the floor of the exact
wait, not the ceiling the claim states. -/
theorem claim_C7_amended (rl : RateLimiter) (uid : String) (now t : ℚ)
    (hrate : 0 < rl.tokensPerSecond)
    (ht : (rl.getTokens uid now).1 = some t) :
    (rl.getWaitTimeMs uid now).1 =
      max 0 (Int.floor ((1 - t) / rl.tokensPerSecond * 1000)) := by
  cases hf : mapFind rl.buckets uid with
  | none =>
    simp only [RateLimiter.getTokens, hf] at ht
    exact absurd ht (by simp)
  | some b =>
    simp only [RateLimiter.getTokens, hf, Option.some.injEq] at ht
    simp only [RateLimiter.getWaitTimeMs, RateLimiter.getOrCreateBucket, hf]
    rw [ht]
    by_cases hge : 1 ≤ t
    · rw [if_pos hge]
      have harg : (1 - t) / rl.tokensPerSecond * 1000 ≤ 0 := by
        have h1 : 1 - t ≤ 0 := by linarith
        have h2 : (1 - t) / rl.tokensPerSecond ≤ 0 :=
          div_nonpos_of_nonpos_of_nonneg h1 (le_of_lt hrate)
        linarith
      have hfl : Int.floor ((1 - t) / rl.tokensPerSecond * 1000) ≤ 0 :=
        Int.floor_nonpos harg
      rw [max_eq_left hfl]
    · rw [if_neg hge]
      have hpos : 0 < (1 - t) / rl.tokensPerSecond * 1000 := by
        have h1 : 0 < 1 - t := by linarith [not_le.mp hge]
        have h2 : 0 < (1 - t) / rl.tokensPerSecond := div_pos h1 hrate
        linarith
      have htr : truncQ ((1 - t) / rl.tokensPerSecond * 1000) =
          Int.floor ((1 - t) / rl.tokensPerSecond * 1000) := by
        unfold truncQ
        rw [if_neg (not_lt.mpr (le_of_lt hpos))]
      have hfl : 0 ≤ Int.floor ((1 - t) / rl.tokensPerSecond * 1000) :=
        Int.floor_nonneg.mpr (le_of_lt hpos)
      rw [max_eq_right hfl]
      exact htr

/-- A limiter with refill rate 3 and capacity 0 whose user `u` has an
empty bucket: the exact wait for one token is 1000/3 ms. -/
def rlC7 : RateLimiter :=
  ⟨3, 0, [("u", ⟨0, 0⟩)]⟩

/-- Counterexample to C7 as stated: with rate 3 and an empty bucket
the code returns 333 ms (truncation) while the claimed formula
`max(0, ⌈(1 − tokens)/refillRate · 1000⌉)` gives 334. -/
theorem claim_C7_counterexample :
    (rlC7.getTokens "u" 0).1 = some 0 ∧
    (rlC7.getWaitTimeMs "u" 0).1 = 333 ∧
    max 0 (Int.ceil (((1 : ℚ) - 0) / rlC7.tokensPerSecond * 1000)) = 334 ∧
    (333 : ℤ) ≠ 334 := by
  refine ⟨?_, ?_, ?_, by decide⟩
  · simp only [RateLimiter.getTokens, RateLimiter.refillBucket]
    norm_num [mapFind, rlC7]
  · simp only [RateLimiter.getWaitTimeMs, RateLimiter.getOrCreateBucket,
      RateLimiter.refillBucket]
    norm_num [mapFind, rlC7, truncQ]
  · have harg : ((1 : ℚ) - 0) / rlC7.tokensPerSecond * 1000 = 1000 / 3 := by
      norm_num [rlC7]
    rw [harg]
    have hc : Int.ceil ((1000 : ℚ) / 3) = 334 := by
      rw [Int.ceil_eq_iff]
      constructor <;> norm_num
    rw [hc]
    norm_num

/-- A limiter with the cursor preset (20 Hz, burst 5) whose user `u`
has an empty bucket. -/
def rlC7b : RateLimiter :=
  ⟨20, 5, [("u", ⟨0, 0⟩)]⟩

/-- Witness for C7 (amended): at rate 20 with an empty bucket the wait
is `max 0 ⌊1/20 · 1000⌋ = 50` ms. -/
theorem claim_C7_amended_witness :
    (rlC7b.getWaitTimeMs "u" 0).1 =
      max 0 (Int.floor (((1 : ℚ) - 0) / rlC7b.tokensPerSecond * 1000)) :=
  claim_C7_amended rlC7b "u" 0 0 (by norm_num [rlC7b])
    (by simp only [RateLimiter.getTokens, RateLimiter.refillBucket]
        norm_num [mapFind, rlC7b])

end Collabboard

